import Mathlib

/-! ThreadedHasher: the background hashing job of EmulationStation.

A shallow embedding of `es-app/src/ThreadedHasher.cpp`.

* A game entry (`FileData*`) is represented by the record of the fields the
  hasher reads and writes; the queue holds these records in order.
* The static members `mInstance` and `mPaused`, the window's GUI stack and the
  catalog `SystemData::sSystemVector` form the process state `World`.
* Each worker thread running `ThreadedHasher::run` is a small program counter
  (`WorkerPc`); one call of `runStep` executes one atomic section of `run` for
  one worker.  Everything `run` does between taking `mLoaderLock` and releasing
  it is a single step, which is what the mutex guarantees.  A schedule is a
  list of actions, and `exec` runs a schedule, so a statement about every
  schedule is a statement about every interleaving.
* In `World` a call of `start` is one step: the job is stored in `mInstance`
  before any worker runs.  The code stores it only after the constructor has
  spawned the workers; `HasherProcess` keeps the job object and the static
  pointer apart and splits `start` at that point.
* The `World` also carries observation logs (`reports`, `popped`, `exitLog`,
  `closedBy`, `hashed`) that record what the code did; the code never reads
  them.
-/

set_option autoImplicit false

/-! ## External collaborators -/

/-- The part of a `FileData` game entry the hasher touches: `getSystemName()`,
`getName()` and the metadata fields `Crc32`, `CheevosHash`, `CheevosId`. -/
structure FileData where
  systemName : String
  name : String
  crc32 : String
  cheevosHash : String
  cheevosId : String
  deriving DecidableEq, Repr

/-- A `SystemData` entry of `sSystemVector`: the two capability flags and the
listing `getRootFolder()->getFilesRecursive(GAME)`. -/
structure SystemData where
  netplaySupported : Bool
  cheevosSupported : Bool
  games : List FileData
  deriving DecidableEq, Repr

/-- The externally implemented hash algorithms `FileData::checkCrc32(force)`
and `FileData::checkCheevosHash(force)`, as transformations of the entry. -/
structure HashAlgorithms where
  checkCrc32 : Bool → FileData → FileData
  checkCheevosHash : Bool → FileData → FileData

/-- Modelled from the spec: the enumerators of `HasherType` are declared in
`ThreadedHasher.h`, which is not among the sources; the spec describes the type
mask as a bitset of two kinds, so the netplay checksum is bit 0. -/
def HASH_NETPLAY_CRC : Nat := 1

/-- Modelled from the spec: the enumerators of `HasherType` are declared in
`ThreadedHasher.h`, which is not among the sources; the spec describes the type
mask as a bitset of two kinds, so the achievement digest is bit 1. -/
def HASH_CHEEVOS_MD5 : Nat := 2

/-- Modelled from the spec: `Utils::String::toUpper` lives in
`utils/StringUtil`, which is not among the sources; the spec says the digest is
normalised by upper-casing, so every character is mapped to its upper-case
form. -/
def toUpper (s : String) : String := ⟨s.data.map Char.toUpper⟩

/-- The lookup `std::map::find` on the digest table, kept as an association
list: the entry stored under `key`, if any. -/
def mapFind : List (String × String) → String → Option (String × String)
  | [], _ => none
  | (k, v) :: rest, key => if k = key then some (k, v) else mapFind rest key

/-! ## GUI side -/

/-- The callbacks handed to `GuiMsgBox`: the lambda that calls
`ThreadedHasher::stop()`, or `nullptr`. -/
inductive Callback where
  | callStop
  | null
  deriving DecidableEq, Repr

/-- A `GuiMsgBox` pushed on the window: its text and the buttons the caller
passed explicitly. -/
structure GuiMsgBox where
  text : String
  buttons : List (String × Callback)
  deriving DecidableEq, Repr

/-- What one call of `updateUI` computes: the local string `idx`, the text
given to `updateText` and the value given to `updatePercent`. -/
structure UiUpdate where
  idx : String
  text : String
  percent : Int
  deriving DecidableEq, Repr

/-! ## The job object and the process state -/

/-- Where a worker thread stands inside `ThreadedHasher::run`. -/
inductive WorkerPc where
  /-- Waiting for `mLoaderLock` in front of the `while` test (lines 78, 115). -/
  | atLock
  /-- After `lock.unlock()`, about to test `mPaused` (line 91). -/
  | afterUnlock (game : FileData)
  /-- Inside the pause poll loop (lines 93 to 97). -/
  | pausePoll (game : FileData)
  /-- About to do the hashing work for `game` (lines 100 to 113). -/
  | hashing (game : FileData)
  /-- Returned from `run`. -/
  | finished
  deriving DecidableEq, Repr

/-- The members of a `ThreadedHasher` object.  `mThreads` holds the state of
each spawned thread.  The member types are declared in `ThreadedHasher.h`,
which is not among the sources: `mTotal` is the queue length taken at
construction and `mThreadCount` a signed counter, and both stay far below the
word size, so they are kept as exact integers. -/
structure ThreadedHasher where
  mForce : Bool
  mExit : Bool
  mType : Nat
  mSearchQueue : List FileData
  mTotal : Nat
  mTitle : String
  mCheevosHashes : List (String × String)
  mThreadCount : Int
  mThreads : List WorkerPc
  deriving DecidableEq, Repr

/-- The process state: the statics `mInstance` and `mPaused`, the GUI stack of
the window, the catalog, the machine's `hardware_concurrency()`, the table
`RetroAchievements::getCheevosHashes()` would return, and the observation
logs. -/
structure World where
  mInstance : Option ThreadedHasher
  mPaused : Bool
  guis : List GuiMsgBox
  sSystemVector : List SystemData
  hardwareConcurrency : Nat
  cheevosHashes : List (String × String)
  /-- Every `updateUI` call, oldest first. -/
  reports : List UiUpdate
  /-- Every item taken by `mSearchQueue.pop()`, oldest first. -/
  popped : List FileData
  /-- Every execution of the exit section: the worker and the value of
  `mThreadCount` it saw after its decrement. -/
  exitLog : List (Nat × Int)
  /-- The workers that ran `delete this`, hence closed the notification. -/
  closedBy : List Nat
  /-- The entries as left by the hashing work, in completion order. -/
  hashed : List FileData
  deriving DecidableEq, Repr

namespace ThreadedHasher

/-- The icon prefix `ICONINDEX`. -/
def ICONINDEX : String := "\uF002 "

/-- The function `ThreadedHasher::formatGameName`. -/
def formatGameName (game : FileData) : String :=
  "[" ++ game.systemName ++ "] " ++ game.name

/-- The function `ThreadedHasher::updateUI`, reading `mTotal` and the current
`mSearchQueue.size()` of the object.  The subtractions are done on signed
integers, so a difference that C++ would wrap shows up as a negative number;
the division is the truncating division of non-negative integers. -/
def updateUI (self : ThreadedHasher) (fileData : FileData) : UiUpdate :=
  let size : Nat := self.mSearchQueue.length
  let idx := toString ((self.mTotal : Int) + 1 - (size : Int)) ++ "/" ++ toString self.mTotal
  let percent : Int := 100 - ((size * 100 / self.mTotal : Nat) : Int)
  { idx := idx, text := formatGameName fileData, percent := percent }

/-- Lines 100 to 113 of `run`: the hashing work done for one dequeued item. -/
def hashWork (alg : HashAlgorithms) (self : ThreadedHasher) (game : FileData) : FileData :=
  let cheevos := (self.mType &&& HASH_CHEEVOS_MD5) == HASH_CHEEVOS_MD5
  let netplay := (self.mType &&& HASH_NETPLAY_CRC) == HASH_NETPLAY_CRC
  let g1 := if netplay then alg.checkCrc32 self.mForce game else game
  if cheevos then
    let g2 := alg.checkCheevosHash self.mForce g1
    if self.mCheevosHashes.length > 0 then
      match mapFind self.mCheevosHashes (toUpper g2.cheevosHash) with
      | some entry => { g2 with cheevosId := entry.2 }
      | none => g2
    else g2
  else g1

/-- One atomic section of `ThreadedHasher::run` executed by worker `i`. -/
def runStep (alg : HashAlgorithms) (w : World) (i : Nat) : World :=
  match w.mInstance with
  | none => w
  | some self =>
    match self.mThreads[i]? with
    | none => w
    | some WorkerPc.atLock =>
      match self.mExit, self.mSearchQueue with
      | false, game :: rest =>
        -- loop body up to `lock.unlock()`
        { w with
          reports := w.reports ++ [self.updateUI game]
          popped := w.popped ++ [game]
          mInstance := some { self with
            mSearchQueue := rest
            mThreads := self.mThreads.set i (WorkerPc.afterUnlock game) } }
      | _, _ =>
        -- loop left: exit section, still under the lock
        let count := self.mThreadCount - 1
        if count = 0 then
          { w with
            exitLog := w.exitLog ++ [(i, count)]
            closedBy := w.closedBy ++ [i]
            mInstance := none }
        else
          { w with
            exitLog := w.exitLog ++ [(i, count)]
            mInstance := some { self with
              mThreadCount := count
              mThreads := self.mThreads.set i WorkerPc.finished } }
    | some (WorkerPc.afterUnlock game) =>
      if w.mPaused then
        { w with mInstance := some { self with
            mThreads := self.mThreads.set i (WorkerPc.pausePoll game) } }
      else
        { w with mInstance := some { self with
            mThreads := self.mThreads.set i (WorkerPc.hashing game) } }
    | some (WorkerPc.pausePoll game) =>
      if !self.mExit && w.mPaused then
        w
      else
        { w with mInstance := some { self with
            mThreads := self.mThreads.set i (WorkerPc.hashing game) } }
    | some (WorkerPc.hashing game) =>
      { w with
        hashed := w.hashed ++ [hashWork alg self game]
        mInstance := some { self with
          mThreads := self.mThreads.set i WorkerPc.atLock } }
    | some WorkerPc.finished => w

/-- The number of threads the constructor spawns. -/
def numThreads (hardwareConcurrency : Nat) : Nat :=
  let num_threads := hardwareConcurrency / 2
  if num_threads = 0 then 1 else num_threads

/-- The constructor `ThreadedHasher::ThreadedHasher`. -/
def new (w : World) (type : Nat) (searchQueue : List FileData) (forceAllGames : Bool) :
    ThreadedHasher :=
  { mForce := forceAllGames
    mExit := false
    mType := type
    mSearchQueue := searchQueue
    mTotal := searchQueue.length
    mCheevosHashes :=
      if (type &&& HASH_CHEEVOS_MD5) == HASH_CHEEVOS_MD5 then w.cheevosHashes else []
    mTitle :=
      if type == HASH_CHEEVOS_MD5 then ICONINDEX ++ "SEARCHING RETROACHIEVEMENTS"
      else ICONINDEX ++ "SEARCHING NETPLAY GAMES"
    mThreadCount := (numThreads w.hardwareConcurrency : Nat)
    mThreads := List.replicate (numThreads w.hardwareConcurrency) WorkerPc.atLock }

/-- The inner loop of `start` (lines 153 to 160): the files of one system that
are pushed on `searchQueue`. -/
def pushSystemFiles (takeNetplay takeCheevos forceAllGames : Bool)
    (searchQueue : List FileData) : List FileData → List FileData
  | [] => searchQueue
  | file :: files =>
    let netPlay := takeNetplay && (forceAllGames || file.crc32.isEmpty)
    let cheevos := takeCheevos && (forceAllGames || file.cheevosHash.isEmpty)
    if netPlay || cheevos then
      pushSystemFiles takeNetplay takeCheevos forceAllGames (searchQueue ++ [file]) files
    else
      pushSystemFiles takeNetplay takeCheevos forceAllGames searchQueue files

/-- The outer loop of `start` (lines 145 to 161) over `sSystemVector`. -/
def buildSearchQueue (type : Nat) (forceAllGames : Bool)
    (searchQueue : List FileData) : List SystemData → List FileData
  | [] => searchQueue
  | sys :: systems =>
    let takeNetplay := ((type &&& HASH_NETPLAY_CRC) != 0) && sys.netplaySupported
    let takeCheevos := ((type &&& HASH_CHEEVOS_MD5) != 0) && sys.cheevosSupported
    if !takeNetplay && !takeCheevos then
      buildSearchQueue type forceAllGames searchQueue systems
    else
      buildSearchQueue type forceAllGames
        (pushSystemFiles takeNetplay takeCheevos forceAllGames searchQueue sys.games) systems

/-- The function `ThreadedHasher::stop`. -/
def stop (w : World) : World :=
  match w.mInstance with
  | none => w
  | some thread => { w with mInstance := some { thread with mExit := true } }

/-- The function `ThreadedHasher::start`. -/
def start (w : World) (type : Nat) (forceAllGames silent : Bool) : World :=
  match w.mInstance with
  | some _ =>
    if silent then w
    else
      { w with guis := w.guis ++
          [{ text := "GAME HASHING IS RUNNING. DO YOU WANT TO STOP IT ?"
             buttons := [("YES", Callback.callStop), ("NO", Callback.null)] }] }
  | none =>
    let searchQueue := buildSearchQueue type forceAllGames [] w.sSystemVector
    if searchQueue.length = 0 then
      if !silent then
        { w with guis := w.guis ++ [{ text := "NO GAMES FIT THAT CRITERIA.", buttons := [] }] }
      else w
    else
      { w with mInstance := some (ThreadedHasher.new w type searchQueue forceAllGames) }

/-- Running a button callback of a `GuiMsgBox`. -/
def runCallback (w : World) : Callback → World
  | Callback.callStop => stop w
  | Callback.null => w

/-- Modelled from the spec: `pause()` and `resume()` are declared in
`ThreadedHasher.h`, which is not among the sources; the spec's PauseGate has
`engage()` and `release()`, which set and clear the static `mPaused`. -/
def setPaused (w : World) (value : Bool) : World := { w with mPaused := value }

/-- What can happen next while a job runs: worker `i` executes its next atomic
section, or the surrounding program engages or releases the pause switch or
calls `stop()`. -/
inductive Action where
  | worker (i : Nat)
  | pause
  | resume
  | stop
  deriving DecidableEq, Repr

/-- One action applied to the process state. -/
def step (alg : HashAlgorithms) (w : World) : Action → World
  | Action.worker i => runStep alg w i
  | Action.pause => setPaused w true
  | Action.resume => setPaused w false
  | Action.stop => stop w

/-- A whole schedule, executed from left to right. -/
def exec (alg : HashAlgorithms) (w : World) : List Action → World
  | [] => w
  | a :: rest => exec alg (step alg w a) rest

/-- The process state right after `new ThreadedHasher(window, type, searchQueue,
forceAllGames)` has been stored in `mInstance`, with empty observation logs. -/
def launched (hardwareConcurrency : Nat) (table : List (String × String)) (paused : Bool)
    (type : Nat) (searchQueue : List FileData) (forceAllGames : Bool) : World :=
  let w0 : World :=
    { mInstance := none, mPaused := paused, guis := [], sSystemVector := []
      hardwareConcurrency := hardwareConcurrency, cheevosHashes := table
      reports := [], popped := [], exitLog := [], closedBy := [], hashed := [] }
  { w0 with mInstance := some (ThreadedHasher.new w0 type searchQueue forceAllGames) }

end ThreadedHasher

open ThreadedHasher

/-! ## What one worker step can do, and the reports of a run -/

/-- The possible effects of one step of worker `i` on the process state. -/
inductive RunOutcome (alg : HashAlgorithms) (w : World) (i : Nat) : World → Prop
  | skip : RunOutcome alg w i w
  | dequeue (self : ThreadedHasher) (game : FileData) (rest : List FileData) :
      w.mInstance = some self → self.mThreads[i]? = some WorkerPc.atLock →
      self.mExit = false → self.mSearchQueue = game :: rest →
      RunOutcome alg w i
        { w with
          reports := w.reports ++ [self.updateUI game]
          popped := w.popped ++ [game]
          mInstance := some { self with
            mSearchQueue := rest
            mThreads := self.mThreads.set i (WorkerPc.afterUnlock game) } }
  | exitLast (self : ThreadedHasher) :
      w.mInstance = some self → self.mThreads[i]? = some WorkerPc.atLock →
      (self.mExit = true ∨ self.mSearchQueue = []) → self.mThreadCount - 1 = 0 →
      RunOutcome alg w i
        { w with
          exitLog := w.exitLog ++ [(i, self.mThreadCount - 1)]
          closedBy := w.closedBy ++ [i]
          mInstance := none }
  | exitOther (self : ThreadedHasher) :
      w.mInstance = some self → self.mThreads[i]? = some WorkerPc.atLock →
      (self.mExit = true ∨ self.mSearchQueue = []) → self.mThreadCount - 1 ≠ 0 →
      RunOutcome alg w i
        { w with
          exitLog := w.exitLog ++ [(i, self.mThreadCount - 1)]
          mInstance := some { self with
            mThreadCount := self.mThreadCount - 1
            mThreads := self.mThreads.set i WorkerPc.finished } }
  | toPoll (self : ThreadedHasher) (game : FileData) :
      w.mInstance = some self → self.mThreads[i]? = some (WorkerPc.afterUnlock game) →
      w.mPaused = true →
      RunOutcome alg w i
        { w with mInstance := some { self with
            mThreads := self.mThreads.set i (WorkerPc.pausePoll game) } }
  | toHash (self : ThreadedHasher) (game : FileData) :
      w.mInstance = some self →
      (self.mThreads[i]? = some (WorkerPc.afterUnlock game) ∧ w.mPaused = false ∨
        self.mThreads[i]? = some (WorkerPc.pausePoll game) ∧
          (self.mExit = true ∨ w.mPaused = false)) →
      RunOutcome alg w i
        { w with mInstance := some { self with
            mThreads := self.mThreads.set i (WorkerPc.hashing game) } }
  | hash (self : ThreadedHasher) (game : FileData) :
      w.mInstance = some self → self.mThreads[i]? = some (WorkerPc.hashing game) →
      RunOutcome alg w i
        { w with
          hashed := w.hashed ++ [hashWork alg self game]
          mInstance := some { self with
            mThreads := self.mThreads.set i WorkerPc.atLock } }

/-- The report `updateUI` produces for the item dequeued after `k` others, out of `T`. -/
def mkReport (T k : Nat) (g : FileData) : UiUpdate :=
  { idx := toString ((k : Int) + 1) ++ "/" ++ toString T
    text := "[" ++ g.systemName ++ "] " ++ g.name
    percent := 100 - (((T - k) * 100 / T : Nat) : Int) }

/-- The reports for the items `items`, the first of which is dequeued after `k` others. -/
def reportsFrom (T : Nat) : Nat → List FileData → List UiUpdate
  | _, [] => []
  | k, g :: rest => mkReport T k g :: reportsFrom T (k + 1) rest

/-- The queue invariant of a run started on the queue `q`. -/
def QueueInv (q : List FileData) (w : World) : Prop :=
  ∃ rest, w.popped ++ rest = q ∧ w.reports = reportsFrom q.length 0 w.popped ∧
    ∀ j, w.mInstance = some j → j.mSearchQueue = rest ∧ j.mTotal = q.length

/-- The percent shown for the item dequeued after `k` others: the queue still
holds `T - k` items when `updateUI` runs. -/
def percentAt (T k : Nat) : Int := 100 - (((T - k) * 100 / T : Nat) : Int)

/-! ## Sample data -/

/-- A game entry with no hashes yet. -/
def sampleAlpha : FileData :=
  { systemName := "snes", name := "Alpha", crc32 := "", cheevosHash := "", cheevosId := "" }

/-- A game entry whose digest is already known, in lower case. -/
def sampleBeta : FileData :=
  { systemName := "nes", name := "Beta", crc32 := "", cheevosHash := "abcd1234", cheevosId := "" }

/-- A game entry that already has a checksum. -/
def sampleGamma : FileData :=
  { systemName := "nes", name := "Gamma", crc32 := "1F2E3D4C", cheevosHash := "", cheevosId := "" }

/-- Hash algorithms that leave the entry as it is. -/
def keepAlgorithms : HashAlgorithms :=
  { checkCrc32 := fun _ g => g, checkCheevosHash := fun _ g => g }

/-! ## The initial queue, in the words of the specification -/

/-- The two hash kinds a caller can request. -/
inductive HashKind where
  | netplayChecksum
  | achievementDigest
  deriving DecidableEq

/-- The bit of the type mask that stands for a hash kind. -/
def HashKind.mask : HashKind → Nat
  | HashKind.netplayChecksum => HASH_NETPLAY_CRC
  | HashKind.achievementDigest => HASH_CHEEVOS_MD5

/-- The capability flag of a system for a hash kind. -/
def SystemData.supports (sys : SystemData) : HashKind → Bool
  | HashKind.netplayChecksum => sys.netplaySupported
  | HashKind.achievementDigest => sys.cheevosSupported

/-- The metadata field of a file that holds the hash of a kind. -/
def FileData.hashField (file : FileData) : HashKind → String
  | HashKind.netplayChecksum => file.crc32
  | HashKind.achievementDigest => file.cheevosHash

/-- The inclusion predicate of the specification: some requested hash kind is
supported by the file's system and is forced or still missing on the file. -/
def needsHashing (typeMask : Nat) (forceAll : Bool) (sys : SystemData) (file : FileData) : Prop :=
  ∃ K : HashKind, (typeMask &&& K.mask) ≠ 0 ∧ sys.supports K = true ∧
    (forceAll = true ∨ (file.hashField K).isEmpty = true)

instance needsHashingDecidable (typeMask : Nat) (forceAll : Bool) (sys : SystemData)
    (file : FileData) : Decidable (needsHashing typeMask forceAll sys file) :=
  if h1 : (typeMask &&& HashKind.netplayChecksum.mask) ≠ 0 ∧
      sys.supports HashKind.netplayChecksum = true ∧
      (forceAll = true ∨ (file.hashField HashKind.netplayChecksum).isEmpty = true) then
    isTrue ⟨HashKind.netplayChecksum, h1⟩
  else if h2 : (typeMask &&& HashKind.achievementDigest.mask) ≠ 0 ∧
      sys.supports HashKind.achievementDigest = true ∧
      (forceAll = true ∨ (file.hashField HashKind.achievementDigest).isEmpty = true) then
    isTrue ⟨HashKind.achievementDigest, h2⟩
  else
    isFalse (fun ⟨K, hK⟩ => by cases K; exact h1 hK; exact h2 hK)

/-- The initial queue of the specification: the catalog enumeration, systems in
order and each system's game files in order, filtered by `needsHashing`. -/
def specInitialQueue (typeMask : Nat) (forceAll : Bool) : List SystemData → List FileData
  | [] => []
  | sys :: systems =>
    sys.games.filter (fun file => decide (needsHashing typeMask forceAll sys file)) ++
      specInitialQueue typeMask forceAll systems

/-- A fresh process state over a catalog: no job, no GUI, empty logs. -/
def idleWorld (systems : List SystemData) (hardwareConcurrency : Nat) : World :=
  { mInstance := none, mPaused := false, guis := [], sSystemVector := systems
    hardwareConcurrency := hardwareConcurrency, cheevosHashes := []
    reports := [], popped := [], exitLog := [], closedBy := [], hashed := [] }

/-- A catalog with one netplay-only system and one system without capabilities. -/
def sampleCatalog : List SystemData :=
  [{ netplaySupported := true, cheevosSupported := false, games := [sampleAlpha, sampleGamma] },
   { netplaySupported := false, cheevosSupported := false, games := [sampleBeta] }]

/-! ## Operations on the process state -/

/-- Everything that acts on the process state: a call of `start`, or an action
of a running job (a worker step, the pause switch, `stop`). -/
inductive Operation where
  | start (type : Nat) (forceAllGames silent : Bool)
  | act (a : Action)

/-- One operation applied to the process state. -/
def applyOp (alg : HashAlgorithms) (w : World) : Operation → World
  | Operation.start type forceAllGames silent => start w type forceAllGames silent
  | Operation.act a => step alg w a

/-- A sequence of operations, applied from left to right. -/
def applyOps (alg : HashAlgorithms) (w : World) : List Operation → World
  | [] => w
  | op :: rest => applyOps alg (applyOp alg w op) rest

/-- The confirmation prompt `start` shows while a job is running. -/
def runningPrompt : GuiMsgBox :=
  { text := "GAME HASHING IS RUNNING. DO YOU WANT TO STOP IT ?"
    buttons := [("YES", Callback.callStop), ("NO", Callback.null)] }

/-- The informational message `start` shows when nothing needs hashing. -/
def noGamesMessage : GuiMsgBox :=
  { text := "NO GAMES FIT THAT CRITERIA.", buttons := [] }

/-! ## Achievement lookup -/

/-- Two strings are equal when letter case is ignored. -/
def equalIgnoringCase (a b : String) : Prop := toUpper a = toUpper b

instance equalIgnoringCaseDecidable (a b : String) : Decidable (equalIgnoringCase a b) :=
  inferInstanceAs (Decidable (toUpper a = toUpper b))

/-- The invariant of the exit sections of a run with `N` workers. -/
def ExitInv (N : Nat) (w : World) : Prop :=
  (w.exitLog.filter (fun e => decide (e.2 = 0))).map Prod.fst = w.closedBy ∧
  (w.exitLog.map Prod.fst).Nodup ∧
  w.exitLog.map Prod.snd =
    (List.range w.exitLog.length).map (fun k : Nat => (N : Int) - 1 - (k : Int)) ∧
  (∀ j, w.mInstance = some j →
    j.mThreadCount = (N : Int) - (w.exitLog.length : Int) ∧ w.exitLog.length < N ∧
    w.closedBy = [] ∧
    ∀ i ∈ w.exitLog.map Prod.fst, j.mThreads[i]? = some WorkerPc.finished) ∧
  (w.mInstance = none →
    w.exitLog.length = N ∧ ∃ i, w.exitLog.getLast? = some (i, 0) ∧ w.closedBy = [i])

/-- What the exit sections of a run with `N` workers have done in the state
`w`, for a job stored in `mInstance` before its first worker step: how often
`mThreadCount` was decremented and what each decrement saw, who saw zero, who
disposed the job, and whether the job is gone. -/
def TeardownOnce (N : Nat) (w : World) : Prop :=
  -- the `k`-th exit section saw `N - k` after its decrement: one decrement each
  w.exitLog.map Prod.snd =
    (List.range w.exitLog.length).map (fun k : Nat => (N : Int) - 1 - (k : Int)) ∧
  -- no worker runs the exit section twice, and at most `N` do
  (w.exitLog.map Prod.fst).Nodup ∧ w.exitLog.length ≤ N ∧
  -- the workers that disposed the job are exactly those that saw zero
  (w.exitLog.filter (fun e => decide (e.2 = 0))).map Prod.fst = w.closedBy ∧
  w.closedBy.length ≤ 1 ∧
  -- while the job lives, the counter is `N` minus the exits and nobody closed
  (∀ j, w.mInstance = some j →
    j.mThreadCount = (N : Int) - (w.exitLog.length : Int) ∧ w.exitLog.length < N ∧
    w.closedBy = []) ∧
  -- the job is gone exactly when all `N` exit sections have run, and then
  -- the last of them saw zero and it alone closed the reporter, once
  (w.mInstance = none ↔ w.exitLog.length = N) ∧
  (w.exitLog.length = N →
    ∃ i, w.exitLog.getLast? = some (i, 0) ∧ w.closedBy = [i] ∧
      (w.exitLog.filter (fun e => decide (e.2 = 0))).length = 1)

/-! ## The pause switch -/

/-- Whether a worker can still reach `mSearchQueue.pop()` without passing the
pause test: it is at the lock or about to hash (1), or not (0). -/
def WorkerPc.ready : WorkerPc → Nat
  | WorkerPc.atLock => 1
  | WorkerPc.hashing _ => 1
  | _ => 0

/-- The number of workers of a job that are at the lock or hashing. -/
def readyCount (j : ThreadedHasher) : Nat := (j.mThreads.map WorkerPc.ready).sum

/-- How many more items can leave the queue while the pause switch stays on. -/
def dequeueBudget (w : World) : Nat :=
  match w.mInstance with
  | none => 0
  | some j => if j.mExit then 0 else readyCount j

/-- The invariant of a stretch of execution during which the pause switch
stays on, started in the state `w0` with the job `j0`. -/
def PausedInv (w0 : World) (j0 : ThreadedHasher) (w : World) : Prop :=
  w.mPaused = true ∧
  w.popped.length + dequeueBudget w ≤ w0.popped.length + readyCount j0 ∧
  w0.popped.length ≤ w.popped.length ∧
  ∀ j, w.mInstance = some j →
    j.mSearchQueue.length + w.popped.length = j0.mSearchQueue.length + w0.popped.length

/-! ## Completing a run -/

/-- A state in which no worker has exited or is busy, the switch is off, the
job is not cancelled and the queue holds `rest`. -/
def DrainState (q : List FileData) (N : Nat) (w : World) (rest : List FileData) : Prop :=
  w.mPaused = false ∧ w.exitLog = [] ∧ w.popped ++ rest = q ∧
  ∃ j, w.mInstance = some j ∧ j.mExit = false ∧ j.mSearchQueue = rest ∧
    j.mThreadCount = (N : Int) ∧ ∀ i, i < N → j.mThreads[i]? = some WorkerPc.atLock

/-- A state in which the queue is empty, the workers below `k` have exited and
the others wait at the lock. -/
def ExitState (q : List FileData) (N : Nat) (w : World) (k : Nat) : Prop :=
  w.popped = q ∧ w.exitLog.length = k ∧
  ∃ j, w.mInstance = some j ∧ j.mSearchQueue = [] ∧
    j.mThreadCount = (N : Int) - (k : Int) ∧
    ∀ i, k ≤ i → i < N → j.mThreads[i]? = some WorkerPc.atLock

/-! ## The job object and the pointer to it, kept apart -/

/-- The process state with the job object and the static pointer kept apart.
In `heap` the field `mInstance` is the job object itself, the `this` of the
workers: `some job` while it is alive, `none` once `delete this` has run.
`pointer` is the static `ThreadedHasher::mInstance`: null, or the address of a
job.  `address` counts the jobs constructed so far; the latest one lives at
that address.  `toStore` is the value of the `new` expression of line 171 that
`start` has evaluated and not yet assigned. -/
structure HasherProcess where
  heap : World
  pointer : Option Nat
  address : Nat
  toStore : Option Nat
  deriving DecidableEq, Repr

namespace HasherProcess

/-- The function `ThreadedHasher::start` up to the evaluation of
`new ThreadedHasher(...)` on line 171: the test of the static pointer, the
scan of the catalog and the constructor, which spawns the workers (lines 50
and 51).  The assignment of the result is `startStore`.  A thread that is
still inside `start` does not call it again. -/
def startNew (p : HasherProcess) (type : Nat) (forceAllGames silent : Bool) : HasherProcess :=
  match p.toStore with
  | some _ => p
  | none =>
    match p.pointer with
    | some _ =>
      if silent then p
      else { p with heap := { p.heap with guis := p.heap.guis ++ [runningPrompt] } }
    | none =>
      let searchQueue := buildSearchQueue type forceAllGames [] p.heap.sSystemVector
      if searchQueue.length = 0 then
        if !silent then
          { p with heap := { p.heap with guis := p.heap.guis ++ [noGamesMessage] } }
        else p
      else
        { p with
          heap := { p.heap with
            mInstance := some (ThreadedHasher.new p.heap type searchQueue forceAllGames) }
          address := p.address + 1
          toStore := some (p.address + 1) }

/-- The assignment `ThreadedHasher::mInstance = ...` that ends line 171. -/
def startStore (p : HasherProcess) : HasherProcess :=
  match p.toStore with
  | none => p
  | some a => { p with pointer := some a, toStore := none }

/-- One atomic section of `run` executed by worker `i` on the job object.  When
the section deletes the job, the destructor (line 59) and line 124 set the
static pointer to null. -/
def workerStep (alg : HashAlgorithms) (p : HasherProcess) (i : Nat) : HasherProcess :=
  if p.heap.mInstance.isSome && (runStep alg p.heap i).mInstance.isNone then
    { p with heap := runStep alg p.heap i, pointer := none }
  else
    { p with heap := runStep alg p.heap i }

/-- What can happen next: the thread calling `start` reaches the `new`
expression or performs the assignment, or worker `i` executes its next atomic
section. -/
inductive Move where
  | startNew (type : Nat) (forceAllGames silent : Bool)
  | startStore
  | worker (i : Nat)
  deriving DecidableEq, Repr

/-- One move applied to the process. -/
def move (alg : HashAlgorithms) (p : HasherProcess) : Move → HasherProcess
  | Move.startNew type forceAllGames silent => startNew p type forceAllGames silent
  | Move.startStore => startStore p
  | Move.worker i => workerStep alg p i

/-- A sequence of moves, applied from left to right. -/
def run (alg : HashAlgorithms) (p : HasherProcess) : List Move → HasherProcess
  | [] => p
  | m :: rest => run alg (move alg p m) rest

end HasherProcess

/-- A process with no job, a null pointer and the sample catalog, on a machine
with `hardware_concurrency() = 2`, hence one worker per job. -/
def idleProcess : HasherProcess :=
  { heap := idleWorld sampleCatalog 2, pointer := none, address := 0, toStore := none }

/-- The single worker runs `run` to its end (dequeue, pause test, hashing, exit
section) between the constructor and the assignment of line 171. -/
def teardownBeforeStore : List HasherProcess.Move :=
  [HasherProcess.Move.startNew HASH_NETPLAY_CRC false true,
   HasherProcess.Move.worker 0, HasherProcess.Move.worker 0,
   HasherProcess.Move.worker 0, HasherProcess.Move.worker 0,
   HasherProcess.Move.startStore]

/-- The same moves with the assignment of line 171 before the first worker
step. -/
def storeBeforeTeardown : List HasherProcess.Move :=
  [HasherProcess.Move.startNew HASH_NETPLAY_CRC false true,
   HasherProcess.Move.startStore,
   HasherProcess.Move.worker 0, HasherProcess.Move.worker 0,
   HasherProcess.Move.worker 0, HasherProcess.Move.worker 0]

theorem runStep_outcome (alg : HashAlgorithms) (w : World) (i : Nat) :
    RunOutcome alg w i (runStep alg w i) := by
  unfold runStep
  split
  · exact RunOutcome.skip
  · rename_i self hself
    split
    · exact RunOutcome.skip
    · rename_i hpc
      split
      · rename_i game rest hexit hsq
        exact RunOutcome.dequeue self game rest hself hpc hexit hsq
      · rename_i hno
        have hcond : self.mExit = true ∨ self.mSearchQueue = [] := by
          cases hE : self.mExit with
          | true => exact Or.inl rfl
          | false =>
            right
            cases hQ : self.mSearchQueue with
            | nil => rfl
            | cons g r => exact (hno g r hE hQ).elim
        dsimp only
        split
        · rename_i h0
          exact RunOutcome.exitLast self hself hpc hcond h0
        · rename_i h0
          exact RunOutcome.exitOther self hself hpc hcond h0
    · rename_i game hpc
      split
      · rename_i hp
        exact RunOutcome.toPoll self game hself hpc hp
      · rename_i hp
        exact RunOutcome.toHash self game hself (Or.inl ⟨hpc, by simpa using hp⟩)
    · rename_i game hpc
      split
      · exact RunOutcome.skip
      · rename_i hp
        refine RunOutcome.toHash self game hself (Or.inr ⟨hpc, ?_⟩)
        cases hE : self.mExit <;> cases hP : w.mPaused <;> simp [hE, hP] at hp ⊢
    · rename_i game hpc
      exact RunOutcome.hash self game hself hpc
    · exact RunOutcome.skip

theorem reportsFrom_append (T : Nat) (l : List FileData) (g : FileData) :
    ∀ k, reportsFrom T k (l ++ [g]) = reportsFrom T k l ++ [mkReport T (k + l.length) g] := by
  induction l with
  | nil => intro k; simp [reportsFrom]
  | cons a l ih =>
    intro k
    show mkReport T k a :: reportsFrom T (k + 1) (l ++ [g]) = _
    rw [ih (k + 1)]
    have : k + 1 + l.length = k + (a :: l).length := by simp; omega
    rw [this]
    rfl

theorem updateUI_eq_mkReport (self : ThreadedHasher) (g : FileData) (k : Nat)
    (h : self.mSearchQueue.length + k = self.mTotal) :
    self.updateUI g = mkReport self.mTotal k g := by
  have h1 : self.mSearchQueue.length = self.mTotal - k := by omega
  have h2 : (self.mTotal : Int) + 1 - (self.mSearchQueue.length : Int) = (k : Int) + 1 := by omega
  simp only [updateUI, mkReport, formatGameName]
  rw [h2, h1]

theorem queueInv_outcome (alg : HashAlgorithms) (q : List FileData) (w w' : World) (i : Nat)
    (ho : RunOutcome alg w i w') (h : QueueInv q w) : QueueInv q w' := by
  obtain ⟨rest, hq, hr, hj⟩ := h
  have keep : ∀ self : ThreadedHasher, w.mInstance = some self → ∀ j : ThreadedHasher,
      j.mSearchQueue = self.mSearchQueue → j.mTotal = self.mTotal →
      j.mSearchQueue = rest ∧ j.mTotal = q.length := by
    intro self hself j h1 h2
    obtain ⟨a, b⟩ := hj self hself
    exact ⟨h1.trans a, h2.trans b⟩
  cases ho with
  | skip => exact ⟨rest, hq, hr, hj⟩
  | dequeue self game rest' hself hpc hexit hsq =>
    obtain ⟨hqueue, htotal⟩ := hj self hself
    refine ⟨rest', ?_, ?_, ?_⟩
    · simp only [List.append_assoc, List.singleton_append]
      rw [← hq, ← hqueue, hsq]
    · simp only
      rw [reportsFrom_append, hr, Nat.zero_add]
      congr 2
      rw [← htotal]
      apply updateUI_eq_mkReport
      rw [htotal, ← hq, ← hqueue, hsq]; simp; omega
    · intro j hj'
      simp only [Option.some.injEq] at hj'
      subst hj'
      exact ⟨rfl, htotal⟩
  | exitLast self hself _ _ _ => exact ⟨rest, hq, hr, by intro j hj'; simp at hj'⟩
  | exitOther self hself _ _ _ =>
    refine ⟨rest, hq, hr, ?_⟩
    intro j hj'
    simp only [Option.some.injEq] at hj'
    subst hj'
    exact keep self hself _ rfl rfl
  | toPoll self game hself _ _ =>
    refine ⟨rest, hq, hr, ?_⟩
    intro j hj'
    simp only [Option.some.injEq] at hj'
    subst hj'
    exact keep self hself _ rfl rfl
  | toHash self game hself _ =>
    refine ⟨rest, hq, hr, ?_⟩
    intro j hj'
    simp only [Option.some.injEq] at hj'
    subst hj'
    exact keep self hself _ rfl rfl
  | hash self game hself _ =>
    refine ⟨rest, hq, hr, ?_⟩
    intro j hj'
    simp only [Option.some.injEq] at hj'
    subst hj'
    exact keep self hself _ rfl rfl

theorem queueInv_step (alg : HashAlgorithms) (q : List FileData) (w : World) (a : Action)
    (h : QueueInv q w) : QueueInv q (step alg w a) := by
  cases a with
  | worker i => exact queueInv_outcome alg q w _ i (runStep_outcome alg w i) h
  | pause => exact h
  | resume => exact h
  | stop =>
    show QueueInv q (ThreadedHasher.stop w)
    unfold ThreadedHasher.stop
    split
    · exact h
    · rename_i thread hthread
      obtain ⟨rest, hq, hr, hj⟩ := h
      refine ⟨rest, hq, hr, ?_⟩
      intro j hj'
      simp only [Option.some.injEq] at hj'
      subst hj'
      exact hj thread hthread

theorem queueInv_exec (alg : HashAlgorithms) (q : List FileData) (sched : List Action) :
    ∀ w, QueueInv q w → QueueInv q (exec alg w sched) := by
  induction sched with
  | nil => intro w h; exact h
  | cons a rest ih => intro w h; exact ih _ (queueInv_step alg q w a h)

theorem queueInv_launched (hw : Nat) (table : List (String × String)) (paused : Bool)
    (type : Nat) (q : List FileData) (force : Bool) :
    QueueInv q (launched hw table paused type q force) := by
  refine ⟨q, rfl, rfl, ?_⟩
  intro j hj
  simp only [launched, Option.some.injEq] at hj
  subst hj
  exact ⟨rfl, rfl⟩

theorem percentAt_mono (T : Nat) {a b : Nat} (h : a ≤ b) : percentAt T a ≤ percentAt T b := by
  unfold percentAt
  have h1 : (T - b) * 100 / T ≤ (T - a) * 100 / T :=
    Nat.div_le_div_right (Nat.mul_le_mul_right _ (by omega))
  omega

theorem reportsFrom_length (T : Nat) (l : List FileData) :
    ∀ k, (reportsFrom T k l).length = l.length := by
  induction l with
  | nil => intro k; rfl
  | cons a l ih => intro k; simp [reportsFrom, ih]

theorem reportsFrom_getElem? (T : Nat) (l : List FileData) :
    ∀ k i, (reportsFrom T k l)[i]? = (l[i]?).map (mkReport T (k + i)) := by
  induction l with
  | nil => intro k i; simp [reportsFrom]
  | cons a l ih =>
    intro k i
    cases i with
    | zero => simp [reportsFrom]
    | succ i =>
      simp only [reportsFrom, List.getElem?_cons_succ, ih]
      have : k + 1 + i = k + (i + 1) := by omega
      rw [this]

theorem reportsFrom_percent (T : Nat) (l : List FileData) :
    ∀ k, (reportsFrom T k l).map (fun r => r.percent) =
      (List.range l.length).map (fun i => percentAt T (k + i)) := by
  intro k
  apply List.ext_getElem?
  intro i
  simp only [List.getElem?_map, reportsFrom_getElem?]
  by_cases hi : i < l.length
  · rw [List.getElem?_range hi, List.getElem?_eq_getElem hi]
    rfl
  · have h1 : l[i]? = none := List.getElem?_eq_none (by omega)
    have h2 : (List.range l.length)[i]? = none :=
      List.getElem?_eq_none (by simp; omega)
    rw [h1, h2]
    rfl

theorem pairwise_percentAt (T n : Nat) :
    List.Pairwise (fun a b : Int => a ≤ b) ((List.range n).map (fun i => percentAt T i)) := by
  rw [List.pairwise_map]
  exact (List.pairwise_lt_range n).imp (fun h => percentAt_mono T (Nat.le_of_lt h))

theorem run_reports (alg : HashAlgorithms) (hw : Nat) (table : List (String × String))
    (paused : Bool) (type : Nat) (q : List FileData) (force : Bool) (sched : List Action) :
    ∃ rest, (exec alg (launched hw table paused type q force) sched).popped ++ rest = q ∧
      (exec alg (launched hw table paused type q force) sched).reports =
        reportsFrom q.length 0 (exec alg (launched hw table paused type q force) sched).popped ∧
      ∀ j, (exec alg (launched hw table paused type q force) sched).mInstance = some j →
        j.mSearchQueue = rest ∧ j.mTotal = q.length :=
  queueInv_exec alg q sched _ (queueInv_launched hw table paused type q force)

/-! ## Claims about the progress reports -/

/-- C1: in every run on an initial queue `q` of size `T`, under every schedule
of the workers, the percent values passed to the reporter, in dequeue order, are
`100 - (s * 100 / T)` for the queue sizes `s = T, T - 1, ...` and form a
non-decreasing sequence. -/
theorem percent_nondecreasing_in_dequeue_order (alg : HashAlgorithms) (hw : Nat)
    (table : List (String × String)) (paused : Bool) (type : Nat) (q : List FileData)
    (force : Bool) (sched : List Action) :
    (exec alg (launched hw table paused type q force) sched).reports.length ≤ q.length ∧
    (exec alg (launched hw table paused type q force) sched).reports.map (fun r => r.percent) =
      (List.range (exec alg (launched hw table paused type q force) sched).reports.length).map
        (fun k => (100 : Int) - (((q.length - k) * 100 / q.length : Nat) : Int)) ∧
    List.Pairwise (fun a b : Int => a ≤ b)
      ((exec alg (launched hw table paused type q force) sched).reports.map (fun r => r.percent)) := by
  obtain ⟨rest, hq, hr, -⟩ := run_reports alg hw table paused type q force sched
  generalize (exec alg (launched hw table paused type q force) sched) = w at *
  have hlen : w.reports.length = w.popped.length := by rw [hr, reportsFrom_length]
  have hmap := reportsFrom_percent q.length w.popped 0
  rw [← hr] at hmap
  simp only [Nat.zero_add] at hmap
  have hql : q.length = w.popped.length + rest.length := by rw [← hq, List.length_append]
  refine ⟨by omega, ?_, ?_⟩
  · rw [hmap, hlen]; rfl
  · rw [hmap]; exact pairwise_percentAt _ _

/-- C2, as amended: for every non-empty initial queue `q` of size `T`, once
every item has been dequeued the last report has processed count `T` (the
string `T/T`), names the last item of `q`, and has percent `100 - 100 / T` in
integer division; that percent is 100 exactly when `T > 100`. -/
theorem last_report_when_drained (alg : HashAlgorithms) (hw : Nat)
    (table : List (String × String)) (paused : Bool) (type : Nat) (q : List FileData)
    (force : Bool) (sched : List Action) (hne : q ≠ [])
    (hall : (exec alg (launched hw table paused type q force) sched).popped = q) :
    (exec alg (launched hw table paused type q force) sched).reports.getLast? =
      some { idx := toString (q.length : Int) ++ "/" ++ toString q.length
             text := formatGameName (q.getLast hne)
             percent := 100 - ((100 / q.length : Nat) : Int) } ∧
    ((100 : Int) - ((100 / q.length : Nat) : Int) = 100 ↔ 100 < q.length) := by
  obtain ⟨rest, -, hr, -⟩ := run_reports alg hw table paused type q force sched
  rw [hall] at hr
  have hpos : 0 < q.length := List.length_pos.mpr hne
  constructor
  · have hsplit : q = q.dropLast ++ [q.getLast hne] := (List.dropLast_append_getLast hne).symm
    have hdl : q.dropLast.length = q.length - 1 := by simp
    have h1 : ((q.length - 1 : Nat) : Int) + 1 = (q.length : Int) := by omega
    have h2 : q.length - (q.length - 1) = 1 := by omega
    rw [hr, congrArg (reportsFrom q.length 0) hsplit, reportsFrom_append, Nat.zero_add, hdl,
      List.getLast?_append, List.getLast?_singleton]
    simp only [Option.or, mkReport, formatGameName]
    rw [h1, h2, Nat.one_mul]
  · constructor
    · intro h
      by_contra hle
      have : 1 ≤ 100 / q.length := (Nat.le_div_iff_mul_le hpos).mpr (by omega)
      omega
    · intro h
      have : 100 / q.length = 0 := Nat.div_eq_of_lt h
      omega

/-- Witness for C2: a queue of two items drained by one worker. -/
theorem last_report_when_drained_witness :
    (exec keepAlgorithms (launched 2 [] false HASH_NETPLAY_CRC [sampleAlpha, sampleBeta] false)
      [Action.worker 0, Action.worker 0, Action.worker 0, Action.worker 0]).reports.getLast? =
      some { idx := toString (([sampleAlpha, sampleBeta].length : Nat) : Int) ++ "/" ++
               toString [sampleAlpha, sampleBeta].length
             text := formatGameName ([sampleAlpha, sampleBeta].getLast (by decide))
             percent := 100 - ((100 / [sampleAlpha, sampleBeta].length : Nat) : Int) } ∧
    ((100 : Int) - ((100 / [sampleAlpha, sampleBeta].length : Nat) : Int) = 100 ↔
      100 < [sampleAlpha, sampleBeta].length) :=
  last_report_when_drained keepAlgorithms 2 [] false HASH_NETPLAY_CRC [sampleAlpha, sampleBeta]
    false [Action.worker 0, Action.worker 0, Action.worker 0, Action.worker 0]
    (by decide) (by decide)

/-- Counterexample to C2 as stated: a queue of one item is drained by the
single worker's first step, the job is not cancelled, and the last (only)
report has processed count 1 of 1 but percent 0, not 100. -/
theorem last_percent_single_item_is_zero :
    (exec keepAlgorithms (launched 2 [] false HASH_NETPLAY_CRC [sampleAlpha] false)
      [Action.worker 0]).popped = [sampleAlpha] ∧
    (exec keepAlgorithms (launched 2 [] false HASH_NETPLAY_CRC [sampleAlpha] false)
      [Action.worker 0]).mInstance.map (fun j => (j.mExit, j.mSearchQueue)) = some (false, []) ∧
    (exec keepAlgorithms (launched 2 [] false HASH_NETPLAY_CRC [sampleAlpha] false)
      [Action.worker 0]).reports.getLast? =
        some { idx := "1/1", text := "[snes] Alpha", percent := 0 } ∧
    (exec keepAlgorithms (launched 2 [] false HASH_NETPLAY_CRC [sampleAlpha] false)
      [Action.worker 0]).reports.getLast?.map (fun r => r.percent) ≠ some 100 := by
  decide

/-- C3: items leave the queue in FIFO order and each report names the item
leaving the queue.  In every run on an initial queue `q` of size `T`, under
every schedule, the items dequeued so far are a prefix of `q` and the queue
holds the rest; for every `k ≥ 1` up to the number of dequeues made, the
`k`-th dequeue removed `q[k-1]`, and its report has the label
`"[" ++ systemName ++ "] " ++ name` of that item and the processed count
`T + 1 - (T + 1 - k) = k`. -/
theorem dequeue_is_fifo_and_labelled (alg : HashAlgorithms) (hw : Nat)
    (table : List (String × String)) (paused : Bool) (type : Nat) (q : List FileData)
    (force : Bool) (sched : List Action) (k : Nat) (hk1 : 1 ≤ k)
    (hk : k ≤ (exec alg (launched hw table paused type q force) sched).popped.length) :
    (exec alg (launched hw table paused type q force) sched).popped =
      q.take (exec alg (launched hw table paused type q force) sched).popped.length ∧
    (∀ j, (exec alg (launched hw table paused type q force) sched).mInstance = some j →
      j.mSearchQueue =
        q.drop (exec alg (launched hw table paused type q force) sched).popped.length) ∧
    k ≤ q.length ∧
    ∃ g, q[k - 1]? = some g ∧
      (exec alg (launched hw table paused type q force) sched).popped[k - 1]? = some g ∧
      (exec alg (launched hw table paused type q force) sched).reports[k - 1]? =
        some { idx := toString ((q.length : Int) + 1 - ((q.length + 1 - k : Nat) : Int)) ++ "/" ++
                 toString q.length
               text := "[" ++ g.systemName ++ "] " ++ g.name
               percent := 100 - (((q.length + 1 - k) * 100 / q.length : Nat) : Int) } ∧
      (q.length : Int) + 1 - ((q.length + 1 - k : Nat) : Int) = (k : Int) := by
  obtain ⟨rest, hq, hr, hj⟩ := run_reports alg hw table paused type q force sched
  generalize (exec alg (launched hw table paused type q force) sched) = w at *
  have hlen : q.length = w.popped.length + rest.length := by rw [← hq, List.length_append]
  have htake : q.take w.popped.length = w.popped := by rw [← hq]; simp
  have hdrop : q.drop w.popped.length = rest := by rw [← hq]; simp
  have hkq : k ≤ q.length := by omega
  have hlt : k - 1 < w.popped.length := by omega
  have hcount : (q.length : Int) + 1 - ((q.length + 1 - k : Nat) : Int) = (k : Int) := by omega
  refine ⟨htake.symm, ?_, hkq, w.popped[k - 1], ?_, ?_, ?_, hcount⟩
  · intro j hjw
    rw [hdrop]
    exact (hj j hjw).1
  · rw [← hq, List.getElem?_append_left hlt, List.getElem?_eq_getElem hlt]
  · exact List.getElem?_eq_getElem hlt
  · rw [hr, reportsFrom_getElem?, List.getElem?_eq_getElem hlt, hcount]
    simp only [Option.map_some', mkReport, Nat.zero_add]
    have h1 : ((k - 1 : Nat) : Int) + 1 = (k : Int) := by omega
    have h2 : q.length - (k - 1) = q.length + 1 - k := by omega
    rw [h1, h2]

/-- Witness for C3: the second dequeue of a two-worker run on a queue of three. -/
theorem dequeue_is_fifo_and_labelled_witness :
    ∃ g, [sampleAlpha, sampleBeta, sampleGamma][2 - 1]? = some g ∧
      (exec keepAlgorithms
        (launched 4 [] false HASH_NETPLAY_CRC [sampleAlpha, sampleBeta, sampleGamma] false)
        [Action.worker 1, Action.worker 0]).popped[2 - 1]? = some g ∧
      (exec keepAlgorithms
        (launched 4 [] false HASH_NETPLAY_CRC [sampleAlpha, sampleBeta, sampleGamma] false)
        [Action.worker 1, Action.worker 0]).reports[2 - 1]? =
        some { idx := toString ((([sampleAlpha, sampleBeta, sampleGamma].length : Nat) : Int) + 1 -
                 (([sampleAlpha, sampleBeta, sampleGamma].length + 1 - 2 : Nat) : Int)) ++ "/" ++
                 toString [sampleAlpha, sampleBeta, sampleGamma].length
               text := "[" ++ g.systemName ++ "] " ++ g.name
               percent := 100 - ((([sampleAlpha, sampleBeta, sampleGamma].length + 1 - 2) * 100 /
                 [sampleAlpha, sampleBeta, sampleGamma].length : Nat) : Int) } ∧
      (([sampleAlpha, sampleBeta, sampleGamma].length : Nat) : Int) + 1 -
        (([sampleAlpha, sampleBeta, sampleGamma].length + 1 - 2 : Nat) : Int) = ((2 : Nat) : Int) :=
  (dequeue_is_fifo_and_labelled keepAlgorithms 4 [] false HASH_NETPLAY_CRC
    [sampleAlpha, sampleBeta, sampleGamma] false [Action.worker 1, Action.worker 0] 2
    (by decide) (by decide)).2.2.2

/-! ## Claims about `start` and `stop` -/

theorem pushSystemFiles_eq (typeMask : Nat) (forceAll : Bool) (sys : SystemData)
    (files : List FileData) : ∀ acc : List FileData,
    pushSystemFiles (((typeMask &&& HASH_NETPLAY_CRC) != 0) && sys.netplaySupported)
      (((typeMask &&& HASH_CHEEVOS_MD5) != 0) && sys.cheevosSupported) forceAll acc files =
      acc ++ files.filter (fun file => decide (needsHashing typeMask forceAll sys file)) := by
  induction files with
  | nil => intro acc; simp [pushSystemFiles]
  | cons file files ih =>
    intro acc
    have hiff : ((((typeMask &&& HASH_NETPLAY_CRC) != 0) && sys.netplaySupported) &&
          (forceAll || file.crc32.isEmpty) ||
        (((typeMask &&& HASH_CHEEVOS_MD5) != 0) && sys.cheevosSupported) &&
          (forceAll || file.cheevosHash.isEmpty)) = true ↔
        needsHashing typeMask forceAll sys file := by
      constructor
      · intro h
        simp only [Bool.or_eq_true, Bool.and_eq_true, bne_iff_ne, ne_eq] at h
        rcases h with ⟨⟨h1, h2⟩, h3⟩ | ⟨⟨h1, h2⟩, h3⟩
        · exact ⟨HashKind.netplayChecksum, h1, h2, h3⟩
        · exact ⟨HashKind.achievementDigest, h1, h2, h3⟩
      · rintro ⟨K, h1, h2, h3⟩
        simp only [Bool.or_eq_true, Bool.and_eq_true, bne_iff_ne, ne_eq]
        cases K
        · exact Or.inl ⟨⟨h1, h2⟩, h3⟩
        · exact Or.inr ⟨⟨h1, h2⟩, h3⟩
    unfold pushSystemFiles
    by_cases hn : needsHashing typeMask forceAll sys file
    · have hb := hiff.mpr hn
      simp only [hb, if_true, ih, List.filter_cons, hn, decide_True, List.append_assoc,
        List.singleton_append]
    · have hb : ¬ _ := fun h => hn (hiff.mp h)
      simp only [hb, if_false, ih, List.filter_cons, hn, decide_False]
      simp

theorem buildSearchQueue_eq (typeMask : Nat) (forceAll : Bool) (systems : List SystemData) :
    ∀ acc : List FileData, buildSearchQueue typeMask forceAll acc systems =
      acc ++ specInitialQueue typeMask forceAll systems := by
  induction systems with
  | nil => intro acc; simp [buildSearchQueue, specInitialQueue]
  | cons sys systems ih =>
    intro acc
    unfold buildSearchQueue
    simp only [specInitialQueue]
    split
    · rename_i hskip
      have hnone : sys.games.filter
          (fun file => decide (needsHashing typeMask forceAll sys file)) = [] := by
        rw [List.filter_eq_nil_iff]
        intro file _
        simp only [decide_eq_true_eq]
        rintro ⟨K, h1, h2, -⟩
        simp only [Bool.and_eq_true, Bool.not_eq_true', Bool.and_eq_false_iff, bne_eq_false_iff_eq]
          at hskip
        cases K
        · rcases hskip.1 with h | h
          · exact h1 h
          · simp [SystemData.supports, h] at h2
        · rcases hskip.2 with h | h
          · exact h1 h
          · simp [SystemData.supports, h] at h2
      rw [ih, hnone, List.nil_append]
    · rw [ih, pushSystemFiles_eq, List.append_assoc]

theorem mem_specInitialQueue (typeMask : Nat) (forceAll : Bool) (file : FileData) :
    ∀ systems : List SystemData, file ∈ specInitialQueue typeMask forceAll systems ↔
      ∃ sys ∈ systems, file ∈ sys.games ∧ needsHashing typeMask forceAll sys file := by
  intro systems
  induction systems with
  | nil => simp [specInitialQueue]
  | cons sys systems ih =>
    simp only [specInitialQueue, List.mem_append, List.mem_filter, decide_eq_true_eq, ih,
      List.mem_cons, exists_eq_or_imp]

/-- C4: when no job is active, the queue `start` builds is exactly the catalog
enumeration (systems in order, each system's game files in order) filtered by
the predicate `needsHashing`, order preserved and nothing added: a file is in
it if and only if some requested hash kind is supported by its system and is
forced or missing on the file.  A job is constructed exactly when that queue is
non-empty, and then holds it as its queue, with `mTotal` its length. -/
theorem start_builds_filtered_catalog (w : World) (typeMask : Nat) (forceAll silent : Bool)
    (hidle : w.mInstance = none) :
    buildSearchQueue typeMask forceAll [] w.sSystemVector =
      specInitialQueue typeMask forceAll w.sSystemVector ∧
    (∀ file, file ∈ specInitialQueue typeMask forceAll w.sSystemVector ↔
      ∃ sys ∈ w.sSystemVector, file ∈ sys.games ∧ needsHashing typeMask forceAll sys file) ∧
    (specInitialQueue typeMask forceAll w.sSystemVector = [] →
      (start w typeMask forceAll silent).mInstance = none) ∧
    (specInitialQueue typeMask forceAll w.sSystemVector ≠ [] →
      ∃ j, (start w typeMask forceAll silent).mInstance = some j ∧
        j.mSearchQueue = specInitialQueue typeMask forceAll w.sSystemVector ∧
        j.mTotal = (specInitialQueue typeMask forceAll w.sSystemVector).length) := by
  have hb := buildSearchQueue_eq typeMask forceAll w.sSystemVector []
  rw [List.nil_append] at hb
  refine ⟨hb, fun file => mem_specInitialQueue typeMask forceAll file _, ?_, ?_⟩
  · intro hempty
    unfold start
    rw [hidle]
    simp only [hb, hempty, List.length_nil, if_true]
    split
    · rfl
    · exact hidle
  · intro hne
    unfold start
    rw [hidle]
    have hlen : (specInitialQueue typeMask forceAll w.sSystemVector).length ≠ 0 := by
      intro h; exact hne (List.length_eq_zero.mp h)
    simp only [hb, hlen, if_false]
    exact ⟨_, rfl, rfl, rfl⟩

/-- Witness for C4: a catalog of two systems, of which one supports netplay. -/
theorem start_builds_filtered_catalog_witness :
    buildSearchQueue HASH_NETPLAY_CRC false [] (idleWorld sampleCatalog 4).sSystemVector =
      specInitialQueue HASH_NETPLAY_CRC false (idleWorld sampleCatalog 4).sSystemVector ∧
    specInitialQueue HASH_NETPLAY_CRC false (idleWorld sampleCatalog 4).sSystemVector =
      [sampleAlpha] :=
  ⟨(start_builds_filtered_catalog (idleWorld sampleCatalog 4) HASH_NETPLAY_CRC false false rfl).1,
    by decide⟩

theorem total_outcome (alg : HashAlgorithms) (w w' : World) (i : Nat)
    (ho : RunOutcome alg w i w') (n : Nat) (h : ∀ j, w.mInstance = some j → j.mTotal = n) :
    ∀ j, w'.mInstance = some j → j.mTotal = n := by
  cases ho with
  | skip => exact h
  | exitLast self hself _ _ _ => intro j hj; simp at hj
  | dequeue self game rest' hself _ _ _ =>
    intro j hj; simp only [Option.some.injEq] at hj; subst hj; exact h self hself
  | exitOther self hself _ _ _ =>
    intro j hj; simp only [Option.some.injEq] at hj; subst hj; exact h self hself
  | toPoll self game hself _ _ =>
    intro j hj; simp only [Option.some.injEq] at hj; subst hj; exact h self hself
  | toHash self game hself _ =>
    intro j hj; simp only [Option.some.injEq] at hj; subst hj; exact h self hself
  | hash self game hself _ =>
    intro j hj; simp only [Option.some.injEq] at hj; subst hj; exact h self hself

theorem total_step (alg : HashAlgorithms) (w : World) (a : Action) (n : Nat)
    (h : ∀ j, w.mInstance = some j → j.mTotal = n) :
    ∀ j, (step alg w a).mInstance = some j → j.mTotal = n := by
  cases a with
  | worker i => exact total_outcome alg w _ i (runStep_outcome alg w i) n h
  | pause => exact h
  | resume => exact h
  | stop =>
    show ∀ j, (ThreadedHasher.stop w).mInstance = some j → j.mTotal = n
    unfold ThreadedHasher.stop
    split
    · exact h
    · rename_i thread hthread
      intro j hj; simp only [Option.some.injEq] at hj; subst hj; exact h thread hthread

theorem total_exec (alg : HashAlgorithms) (n : Nat) (sched : List Action) :
    ∀ w : World, (∀ j, w.mInstance = some j → j.mTotal = n) →
      ∀ j, (exec alg w sched).mInstance = some j → j.mTotal = n := by
  induction sched with
  | nil => intro w h; exact h
  | cons a rest ih => intro w h; exact ih _ (total_step alg w a n h)

/-- C7: `start` with no active job and an empty candidate set constructs no
job (the singleton stays null) and pushes exactly one informational message
when `silent` is false, none when it is true, changing nothing else; every job
`start` does construct has a non-empty queue and `mTotal ≥ 1`, and `mTotal`
keeps that value in every later state of the run, so `updateUI` never divides
by zero. -/
theorem start_without_candidates (alg : HashAlgorithms) (w : World) (type : Nat)
    (forceAllGames silent : Bool) (hidle : w.mInstance = none) :
    (buildSearchQueue type forceAllGames [] w.sSystemVector = [] →
      (start w type forceAllGames silent).mInstance = none ∧
      start w type forceAllGames silent =
        { w with guis := w.guis ++ (if silent then [] else [noGamesMessage]) }) ∧
    (∀ j, (start w type forceAllGames silent).mInstance = some j →
      j.mSearchQueue = buildSearchQueue type forceAllGames [] w.sSystemVector ∧
      j.mSearchQueue ≠ [] ∧ j.mTotal = j.mSearchQueue.length ∧ 1 ≤ j.mTotal ∧
      ∀ sched j', (exec alg (start w type forceAllGames silent) sched).mInstance = some j' →
        1 ≤ j'.mTotal) := by
  constructor
  · intro hempty
    unfold start
    rw [hidle]
    simp only [hempty, List.length_nil, if_true]
    cases silent
    · simp only [Bool.not_false, if_true, Bool.false_eq_true, if_false, noGamesMessage,
        and_true]
    · simp only [Bool.not_true, Bool.false_eq_true, if_false, if_true, List.append_nil]
      exact ⟨hidle, by rw [← hidle]⟩
  · intro j hj
    have hstart : start w type forceAllGames silent =
        if (buildSearchQueue type forceAllGames [] w.sSystemVector).length = 0 then
          (if (!silent) = true then
            { w with guis := w.guis ++ [{ text := "NO GAMES FIT THAT CRITERIA.", buttons := [] }] }
          else w)
        else
          { w with mInstance := some (ThreadedHasher.new w type
              (buildSearchQueue type forceAllGames [] w.sSystemVector) forceAllGames) } := by
      unfold start
      rw [hidle]
    by_cases hlen : (buildSearchQueue type forceAllGames [] w.sSystemVector).length = 0
    · exfalso
      rw [hstart, if_pos hlen] at hj
      split at hj
      · simp only [hidle] at hj
        exact Option.noConfusion hj
      · rw [hidle] at hj
        exact Option.noConfusion hj
    · have hj0 := hj
      rw [hstart, if_neg hlen] at hj
      simp only [Option.some.injEq] at hj
      have hq : j.mSearchQueue = buildSearchQueue type forceAllGames [] w.sSystemVector := by
        rw [← hj]; rfl
      have ht : j.mTotal = j.mSearchQueue.length := by rw [← hj]; rfl
      have hpos : 1 ≤ j.mTotal := by rw [ht, hq]; omega
      refine ⟨hq, ?_, ht, hpos, ?_⟩
      · intro h; rw [hq] at h; exact hlen (by rw [h]; rfl)
      · intro sched j' hj'
        have := total_exec alg j.mTotal sched (start w type forceAllGames silent)
          (by intro k hk; rw [hj0] at hk; simp only [Option.some.injEq] at hk; rw [hk]) j' hj'
        omega

/-- Witness for C7: an empty catalog, not silent. -/
theorem start_without_candidates_witness :
    (start (idleWorld [] 4) HASH_NETPLAY_CRC false false).mInstance = none ∧
    start (idleWorld [] 4) HASH_NETPLAY_CRC false false =
      { idleWorld [] 4 with
        guis := (idleWorld [] 4).guis ++ (if false = true then [] else [noGamesMessage]) } :=
  (start_without_candidates keepAlgorithms (idleWorld [] 4) HASH_NETPLAY_CRC false false rfl).1
    (by decide)

/-- C8: `start` called while a job is active changes nothing but the GUI
stack: the job and every other part of the state are as before, the catalog is
not read, no second job is constructed; with `silent` nothing is pushed, and
without it exactly one prompt is pushed, with the buttons YES and NO, whose YES
action is `stop()` (it sets `mExit` on the active job) and whose NO action does
nothing. -/
theorem start_while_running (w : World) (j : ThreadedHasher) (type : Nat)
    (forceAllGames silent : Bool) (hrun : w.mInstance = some j) :
    start w type forceAllGames silent =
      { w with guis := w.guis ++ (if silent then [] else [runningPrompt]) } ∧
    (start w type forceAllGames silent).mInstance = some j ∧
    (∀ systems, start { w with sSystemVector := systems } type forceAllGames silent =
      { start w type forceAllGames silent with sSystemVector := systems }) ∧
    runningPrompt.buttons = [("YES", Callback.callStop), ("NO", Callback.null)] ∧
    (runCallback (start w type forceAllGames silent) Callback.callStop).mInstance =
      some { j with mExit := true } ∧
    runCallback (start w type forceAllGames silent) Callback.null =
      start w type forceAllGames silent := by
  have h1 : start w type forceAllGames silent =
      { w with guis := w.guis ++ (if silent then [] else [runningPrompt]) } := by
    unfold start
    rw [hrun]
    cases silent
    · rfl
    · simp only [if_true, List.append_nil]
      rw [← hrun]
  refine ⟨h1, ?_, ?_, rfl, ?_, rfl⟩
  · rw [h1]; exact hrun
  · intro systems
    unfold start
    simp only [hrun]
    cases silent <;> simp [hrun]
  · rw [h1]
    simp only [runCallback, ThreadedHasher.stop, hrun]

/-- Witness for C8: a running job and a second, non-silent `start`. -/
theorem start_while_running_witness :
    start (launched 4 [] false HASH_NETPLAY_CRC [sampleAlpha] false) HASH_CHEEVOS_MD5 true false =
      { launched 4 [] false HASH_NETPLAY_CRC [sampleAlpha] false with
        guis := (launched 4 [] false HASH_NETPLAY_CRC [sampleAlpha] false).guis ++
          (if false = true then [] else [runningPrompt]) } :=
  (start_while_running (launched 4 [] false HASH_NETPLAY_CRC [sampleAlpha] false)
    (ThreadedHasher.new (idleWorld [] 4) HASH_NETPLAY_CRC [sampleAlpha] false)
    HASH_CHEEVOS_MD5 true false rfl).1

theorem cancelled_outcome (alg : HashAlgorithms) (w w' : World) (i : Nat)
    (ho : RunOutcome alg w i w') (h : ∀ j, w.mInstance = some j → j.mExit = true) :
    ∀ j, w'.mInstance = some j → j.mExit = true := by
  cases ho with
  | skip => exact h
  | exitLast self hself _ _ _ => intro j hj; simp at hj
  | dequeue self game rest' hself _ _ _ =>
    intro j hj; simp only [Option.some.injEq] at hj; subst hj; exact h self hself
  | exitOther self hself _ _ _ =>
    intro j hj; simp only [Option.some.injEq] at hj; subst hj; exact h self hself
  | toPoll self game hself _ _ =>
    intro j hj; simp only [Option.some.injEq] at hj; subst hj; exact h self hself
  | toHash self game hself _ =>
    intro j hj; simp only [Option.some.injEq] at hj; subst hj; exact h self hself
  | hash self game hself _ =>
    intro j hj; simp only [Option.some.injEq] at hj; subst hj; exact h self hself

theorem cancelled_applyOp (alg : HashAlgorithms) (w : World) (op : Operation)
    (h : ∀ j, w.mInstance = some j → j.mExit = true) (hrun : w.mInstance ≠ none) :
    ∀ j, (applyOp alg w op).mInstance = some j → j.mExit = true := by
  cases op with
  | start type forceAllGames silent =>
    show ∀ j, (start w type forceAllGames silent).mInstance = some j → j.mExit = true
    unfold start
    split
    · split
      · exact h
      · exact h
    · rename_i hnone
      exact (hrun hnone).elim
  | act a =>
    cases a with
    | worker i => exact cancelled_outcome alg w _ i (runStep_outcome alg w i) h
    | pause => exact h
    | resume => exact h
    | stop =>
      show ∀ j, (ThreadedHasher.stop w).mInstance = some j → j.mExit = true
      unfold ThreadedHasher.stop
      split
      · exact h
      · intro j hj; simp only [Option.some.injEq] at hj; subst hj; rfl

/-- C9: `stop` changes nothing when no job is active; when a job is active it
sets that job's `mExit` to true and changes no other field of the job or of the
process state.  The flag is monotonic: no operation (a call of `start`, `stop`,
the pause switch, or any worker step) applied to a state whose job is cancelled
yields a state whose job is not cancelled, and so the job stays cancelled
through every sequence of operations for as long as it exists. -/
theorem stop_sets_only_cancelled (alg : HashAlgorithms) (w : World) :
    (w.mInstance = none → ThreadedHasher.stop w = w) ∧
    (∀ j, w.mInstance = some j →
      ThreadedHasher.stop w = { w with mInstance := some { j with mExit := true } }) ∧
    (∀ op j, w.mInstance = some j → j.mExit = true →
      ∀ j', (applyOp alg w op).mInstance = some j' → j'.mExit = true) ∧
    (∀ ops j, w.mInstance = some j → j.mExit = true →
      (∀ n, n ≤ ops.length → (applyOps alg w (ops.take n)).mInstance ≠ none) →
      ∃ j', (applyOps alg w ops).mInstance = some j' ∧ j'.mExit = true) := by
  refine ⟨?_, ?_, ?_, ?_⟩
  · intro h
    unfold ThreadedHasher.stop
    rw [h]
  · intro j h
    unfold ThreadedHasher.stop
    rw [h]
  · intro op j hj hexit
    apply cancelled_applyOp alg w op
    · intro k hk
      rw [hj] at hk
      simp only [Option.some.injEq] at hk
      rw [← hk]; exact hexit
    · rw [hj]; exact Option.noConfusion
  · intro ops
    induction ops generalizing w with
    | nil => intro j hj hexit _; exact ⟨j, hj, hexit⟩
    | cons op rest ih =>
      intro j hj hexit halive
      have hall : ∀ k, w.mInstance = some k → k.mExit = true := by
        intro k hk
        rw [hj] at hk
        simp only [Option.some.injEq] at hk
        rw [← hk]; exact hexit
      have hne : w.mInstance ≠ none := by rw [hj]; exact Option.noConfusion
      have h1 : (applyOp alg w op).mInstance ≠ none := halive 1 (by simp)
      cases hw1 : (applyOp alg w op).mInstance with
      | none => exact (h1 hw1).elim
      | some j1 =>
        have hexit1 := cancelled_applyOp alg w op hall hne j1 hw1
        apply ih (applyOp alg w op) j1 hw1 hexit1
        intro n hn
        have := halive (n + 1) (by simp; omega)
        simpa [applyOps] using this

/-- Witness for C9: `stop` on a freshly started job, followed by worker steps. -/
theorem stop_sets_only_cancelled_witness :
    ThreadedHasher.stop (launched 4 [] false HASH_NETPLAY_CRC [sampleAlpha, sampleBeta] false) =
      { launched 4 [] false HASH_NETPLAY_CRC [sampleAlpha, sampleBeta] false with
        mInstance := some
          { ThreadedHasher.new (idleWorld [] 4) HASH_NETPLAY_CRC [sampleAlpha, sampleBeta] false with
            mExit := true } } :=
  (stop_sets_only_cancelled keepAlgorithms
    (launched 4 [] false HASH_NETPLAY_CRC [sampleAlpha, sampleBeta] false)).2.1 _ rfl

/-! ## Claim about the achievement lookup -/

theorem exitInv_move (N : Nat) (w : World) (self : ThreadedHasher) (i : Nat)
    (pc pc' : WorkerPc) (job : ThreadedHasher) (w' : World)
    (hself : w.mInstance = some self) (hpc : self.mThreads[i]? = some pc)
    (hnf : pc ≠ WorkerPc.finished)
    (hw1 : w'.mInstance = some job) (hw2 : w'.exitLog = w.exitLog)
    (hw3 : w'.closedBy = w.closedBy)
    (hjob1 : job.mThreadCount = self.mThreadCount)
    (hjob2 : job.mThreads = self.mThreads.set i pc') (h : ExitInv N w) : ExitInv N w' := by
  obtain ⟨h1, h2, h3, h4, -⟩ := h
  obtain ⟨a, b, c, d⟩ := h4 self hself
  refine ⟨by rw [hw2, hw3]; exact h1, by rw [hw2]; exact h2, by rw [hw2]; exact h3, ?_, ?_⟩
  · intro j hj
    rw [hw1] at hj
    simp only [Option.some.injEq] at hj
    subst hj
    refine ⟨by rw [hjob1, hw2]; exact a, by rw [hw2]; exact b, by rw [hw3]; exact c, ?_⟩
    intro i' hi'
    rw [hw2] at hi'
    have hfin := d i' hi'
    have hne : i ≠ i' := by
      intro heq
      subst heq
      rw [hpc] at hfin
      simp only [Option.some.injEq] at hfin
      exact hnf hfin
    rw [hjob2, List.getElem?_set_ne hne]
    exact hfin
  · intro hnone
    rw [hw1] at hnone
    exact Option.noConfusion hnone

theorem exitInv_outcome (alg : HashAlgorithms) (N : Nat) (w w' : World) (i : Nat)
    (ho : RunOutcome alg w i w') (h : ExitInv N w) : ExitInv N w' := by
  cases ho with
  | skip => exact h
  | dequeue self game rest' hself hpc _ _ =>
    exact exitInv_move N w self i _ (WorkerPc.afterUnlock game) _ _ hself hpc
      (by intro hh; cases hh) rfl rfl rfl rfl rfl h
  | toPoll self game hself hpc _ =>
    exact exitInv_move N w self i _ (WorkerPc.pausePoll game) _ _ hself hpc
      (by intro hh; cases hh) rfl rfl rfl rfl rfl h
  | toHash self game hself hpc =>
    rcases hpc with ⟨hpc, -⟩ | ⟨hpc, -⟩
    · exact exitInv_move N w self i _ (WorkerPc.hashing game) _ _ hself hpc
        (by intro hh; cases hh) rfl rfl rfl rfl rfl h
    · exact exitInv_move N w self i _ (WorkerPc.hashing game) _ _ hself hpc
        (by intro hh; cases hh) rfl rfl rfl rfl rfl h
  | hash self game hself hpc =>
    exact exitInv_move N w self i _ WorkerPc.atLock _ _ hself hpc
      (by intro hh; cases hh) rfl rfl rfl rfl rfl h
  | exitLast self hself hpc _ hzero =>
    obtain ⟨h1, h2, h3, h4, -⟩ := h
    obtain ⟨a, b, c, d⟩ := h4 self hself
    have hnew : i ∉ w.exitLog.map Prod.fst := by
      intro hi
      have := d i hi
      rw [hpc] at this
      cases this
    refine ⟨?_, ?_, ?_, ?_, ?_⟩
    · simp only [List.filter_append, List.map_append, h1, hzero]
      simp
    · simp only [List.map_append, List.map_cons, List.map_nil]
      rw [List.nodup_append]
      refine ⟨h2, List.nodup_singleton _, ?_⟩
      intro x hx hx'
      simp only [List.mem_singleton] at hx'
      subst hx'
      exact hnew hx
    · simp only [List.map_append, List.map_cons, List.map_nil, List.length_append,
        List.length_singleton, List.range_succ, h3]
      congr 2
      omega
    · intro j hj
      simp at hj
    · intro _
      refine ⟨?_, i, ?_, ?_⟩
      · simp only [List.length_append, List.length_singleton]
        omega
      · simp only [List.getLast?_append, List.getLast?_singleton, Option.or, hzero]
      · simp only [c, List.nil_append]
  | exitOther self hself hpc _ hnz =>
    obtain ⟨h1, h2, h3, h4, -⟩ := h
    obtain ⟨a, b, c, d⟩ := h4 self hself
    have hnew : i ∉ w.exitLog.map Prod.fst := by
      intro hi
      have := d i hi
      rw [hpc] at this
      cases this
    have hlt : i < self.mThreads.length := by
      by_contra hge
      have : self.mThreads[i]? = none := List.getElem?_eq_none (by omega)
      rw [this] at hpc
      cases hpc
    refine ⟨?_, ?_, ?_, ?_, ?_⟩
    · simp only [List.filter_append, List.map_append, h1]
      simp [hnz]
    · simp only [List.map_append, List.map_cons, List.map_nil]
      rw [List.nodup_append]
      refine ⟨h2, List.nodup_singleton _, ?_⟩
      intro x hx hx'
      simp only [List.mem_singleton] at hx'
      subst hx'
      exact hnew hx
    · simp only [List.map_append, List.map_cons, List.map_nil, List.length_append,
        List.length_singleton, List.range_succ, h3]
      congr 2
      omega
    · intro j hj
      simp only [Option.some.injEq] at hj
      subst hj
      refine ⟨?_, ?_, c, ?_⟩
      · simp only [List.length_append, List.length_singleton]
        push_cast
        omega
      · simp only [List.length_append, List.length_singleton]
        omega
      · intro i' hi'
        simp only [List.map_append, List.map_cons, List.map_nil, List.mem_append,
          List.mem_singleton] at hi'
        rcases hi' with hi' | hi'
        · have hfin := d i' hi'
          have hne : i ≠ i' := by
            intro heq
            subst heq
            exact hnew hi'
          simp only [List.getElem?_set_ne hne]
          exact hfin
        · subst hi'
          simp only [List.getElem?_set_self hlt]
    · intro hnone
      simp at hnone

theorem exitInv_step (alg : HashAlgorithms) (N : Nat) (w : World) (a : Action)
    (h : ExitInv N w) : ExitInv N (step alg w a) := by
  cases a with
  | worker i => exact exitInv_outcome alg N w _ i (runStep_outcome alg w i) h
  | pause => exact h
  | resume => exact h
  | stop =>
    show ExitInv N (ThreadedHasher.stop w)
    unfold ThreadedHasher.stop
    split
    · exact h
    · rename_i thread hthread
      obtain ⟨h1, h2, h3, h4, -⟩ := h
      refine ⟨h1, h2, h3, ?_, ?_⟩
      · intro j hj
        simp only [Option.some.injEq] at hj
        subst hj
        exact h4 thread hthread
      · intro hnone
        simp at hnone

theorem exitInv_exec (alg : HashAlgorithms) (N : Nat) (sched : List Action) :
    ∀ w, ExitInv N w → ExitInv N (exec alg w sched) := by
  induction sched with
  | nil => intro w h; exact h
  | cons a rest ih => intro w h; exact ih _ (exitInv_step alg N w a h)

theorem numThreads_pos (hw : Nat) : 1 ≤ numThreads hw := by
  unfold numThreads
  simp only
  split <;> omega

theorem numThreads_double (N : Nat) (hN : 1 ≤ N) : numThreads (2 * N) = N := by
  unfold numThreads
  simp only [Nat.mul_div_cancel_left N (by decide : 0 < 2)]
  split <;> omega

theorem exitInv_launched (hw : Nat) (table : List (String × String)) (paused : Bool)
    (type : Nat) (q : List FileData) (force : Bool) :
    ExitInv (numThreads hw) (launched hw table paused type q force) := by
  have hpos := numThreads_pos hw
  refine ⟨rfl, List.nodup_nil, rfl, ?_, ?_⟩
  · intro j hj
    simp only [launched, Option.some.injEq] at hj
    subst hj
    refine ⟨?_, ?_, rfl, ?_⟩
    · simp [launched, ThreadedHasher.new]
    · simp only [launched, List.length_nil]; omega
    · intro i hi
      simp [launched] at hi
  · intro hnone
    simp [launched] at hnone

theorem teardownOnce_of_exitInv (N : Nat) (w : World) (h : ExitInv N w) : TeardownOnce N w := by
  obtain ⟨h1, h2, h3, h4, h5⟩ := h
  unfold TeardownOnce
  cases hinst : w.mInstance with
  | some j =>
    obtain ⟨a, b, c, -⟩ := h4 j hinst
    refine ⟨h3, h2, by omega, h1, by rw [c]; simp, ?_, ?_, ?_⟩
    · intro j' hj'
      simp only [Option.some.injEq] at hj'
      subst hj'
      exact ⟨a, b, c⟩
    · constructor
      · intro hh; cases hh
      · intro hh; omega
    · intro hh; omega
  | none =>
    obtain ⟨a, i, b, c⟩ := h5 hinst
    have hone : (w.exitLog.filter (fun e => decide (e.2 = 0))).length = 1 := by
      have := congrArg List.length h1
      rw [List.length_map, c] at this
      exact this
    refine ⟨h3, h2, by omega, h1, by rw [c]; simp, ?_, ?_, ?_⟩
    · intro j' hj'
      cases hj'
    · exact ⟨fun _ => a, fun _ => rfl⟩
    · intro _
      exact ⟨i, b, c, hone⟩

/-- The exit sections of a job whose pointer was stored before its first
worker step (the state `launched`).  In every such run with `N ≥ 1` workers
(`numThreads_double`: every such `N` is the thread count of some machine) and
under every schedule, each exit section decrements `mThreadCount` once (the
`k`-th one sees `N - k`), no worker exits twice, the workers that dispose the
job are exactly those that saw the counter reach 0, and there is at most one;
the job is gone exactly when all `N` exit sections have run, and then exactly
one worker, the last, saw 0 and it alone closed the reporter. -/
theorem exit_sections_once_published (alg : HashAlgorithms) (hw : Nat)
    (table : List (String × String)) (paused : Bool) (type : Nat) (q : List FileData)
    (force : Bool) (sched : List Action) :
    1 ≤ numThreads hw ∧
    TeardownOnce (numThreads hw) (exec alg (launched hw table paused type q force) sched) :=
  ⟨numThreads_pos hw, teardownOnce_of_exitInv _ _
    (exitInv_exec alg _ sched _ (exitInv_launched hw table paused type q force))⟩

/-! ## Claim about the pause switch -/

theorem sum_ready_set : ∀ (l : List WorkerPc) (i : Nat) (a x : WorkerPc), l[i]? = some a →
    ((l.set i x).map WorkerPc.ready).sum + a.ready = (l.map WorkerPc.ready).sum + x.ready := by
  intro l
  induction l with
  | nil => intro i a x h; simp at h
  | cons b l ih =>
    intro i a x h
    cases i with
    | zero =>
      simp only [List.getElem?_cons_zero, Option.some.injEq] at h
      subst h
      simp only [List.set_cons_zero, List.map_cons, List.sum_cons]
      omega
    | succ i =>
      simp only [List.getElem?_cons_succ] at h
      have := ih i a x h
      simp only [List.set_cons_succ, List.map_cons, List.sum_cons]
      omega

theorem readyCount_le_length (j : ThreadedHasher) : readyCount j ≤ j.mThreads.length := by
  unfold readyCount
  induction j.mThreads with
  | nil => simp
  | cons a l ih =>
    simp only [List.map_cons, List.sum_cons, List.length_cons]
    have : a.ready ≤ 1 := by cases a <;> simp [WorkerPc.ready]
    omega

theorem pausedInv_outcome (alg : HashAlgorithms) (w0 : World) (j0 : ThreadedHasher)
    (w w' : World) (i : Nat) (ho : RunOutcome alg w i w') (h : PausedInv w0 j0 w) :
    PausedInv w0 j0 w' := by
  obtain ⟨hp, hb, hmono, hq⟩ := h
  cases ho with
  | skip => exact ⟨hp, hb, hmono, hq⟩
  | dequeue self game rest' hself hpc hexit hsq =>
    have hsum := sum_ready_set self.mThreads i _ (WorkerPc.afterUnlock game) hpc
    simp only [WorkerPc.ready] at hsum
    have hq' := hq self hself
    rw [hsq] at hq'
    simp only [List.length_cons] at hq'
    simp only [dequeueBudget, hself, hexit, readyCount] at hb
    refine ⟨hp, ?_, ?_, ?_⟩
    · simp only [dequeueBudget, hexit, readyCount, List.length_append, List.length_singleton]
      simp only [Bool.false_eq_true, if_false] at hb ⊢
      omega
    · simp only [List.length_append, List.length_singleton]; omega
    · intro j hj
      simp only [Option.some.injEq] at hj
      subst hj
      simp only [List.length_append, List.length_singleton]
      omega
  | exitLast self hself hpc _ _ =>
    refine ⟨hp, ?_, hmono, ?_⟩
    · simp only [dequeueBudget]
      omega
    · intro j hj
      simp at hj
  | exitOther self hself hpc _ _ =>
    have hsum := sum_ready_set self.mThreads i _ WorkerPc.finished hpc
    simp only [WorkerPc.ready] at hsum
    simp only [dequeueBudget, hself, readyCount] at hb
    refine ⟨hp, ?_, hmono, ?_⟩
    · simp only [dequeueBudget, readyCount]
      cases hE : self.mExit
      · simp only [hE, Bool.false_eq_true, if_false] at hb ⊢
        omega
      · simp only [hE, if_true] at hb ⊢
        omega
    · intro j hj
      simp only [Option.some.injEq] at hj
      subst hj
      exact hq self hself
  | toPoll self game hself hpc _ =>
    have hsum := sum_ready_set self.mThreads i _ (WorkerPc.pausePoll game) hpc
    simp only [WorkerPc.ready] at hsum
    simp only [dequeueBudget, hself, readyCount] at hb
    refine ⟨hp, ?_, hmono, ?_⟩
    · simp only [dequeueBudget, readyCount]
      cases hE : self.mExit
      · simp only [hE, Bool.false_eq_true, if_false] at hb ⊢
        omega
      · simp only [hE, if_true] at hb ⊢
        omega
    · intro j hj
      simp only [Option.some.injEq] at hj
      subst hj
      exact hq self hself
  | toHash self game hself hpc =>
    have hE : self.mExit = true := by
      rcases hpc with ⟨-, hf⟩ | ⟨-, hE | hf⟩
      · rw [hp] at hf; cases hf
      · exact hE
      · rw [hp] at hf; cases hf
    simp only [dequeueBudget, hself, hE, if_true] at hb
    refine ⟨hp, ?_, hmono, ?_⟩
    · simp only [dequeueBudget, hE, if_true]
      exact hb
    · intro j hj
      simp only [Option.some.injEq] at hj
      subst hj
      exact hq self hself
  | hash self game hself hpc =>
    have hsum := sum_ready_set self.mThreads i _ WorkerPc.atLock hpc
    simp only [WorkerPc.ready] at hsum
    simp only [dequeueBudget, hself, readyCount] at hb
    refine ⟨hp, ?_, hmono, ?_⟩
    · simp only [dequeueBudget, readyCount]
      cases hE : self.mExit
      · simp only [hE, Bool.false_eq_true, if_false] at hb ⊢
        omega
      · simp only [hE, if_true] at hb ⊢
        omega
    · intro j hj
      simp only [Option.some.injEq] at hj
      subst hj
      exact hq self hself

theorem pausedInv_step (alg : HashAlgorithms) (w0 : World) (j0 : ThreadedHasher)
    (w : World) (a : Action) (ha : a ≠ Action.resume) (h : PausedInv w0 j0 w) :
    PausedInv w0 j0 (step alg w a) := by
  cases a with
  | worker i => exact pausedInv_outcome alg w0 j0 w _ i (runStep_outcome alg w i) h
  | pause =>
    obtain ⟨hp, hb, hmono, hq⟩ := h
    exact ⟨rfl, hb, hmono, hq⟩
  | resume => exact (ha rfl).elim
  | stop =>
    obtain ⟨hp, hb, hmono, hq⟩ := h
    show PausedInv w0 j0 (ThreadedHasher.stop w)
    unfold ThreadedHasher.stop
    split
    · exact ⟨hp, hb, hmono, hq⟩
    · rename_i thread hthread
      refine ⟨hp, ?_, hmono, ?_⟩
      · simp only [dequeueBudget, if_true]
        omega
      · intro j hj
        simp only [Option.some.injEq] at hj
        subst hj
        exact hq thread hthread

theorem pausedInv_exec (alg : HashAlgorithms) (w0 : World) (j0 : ThreadedHasher)
    (seg : List Action) : ∀ w, Action.resume ∉ seg → PausedInv w0 j0 w →
      PausedInv w0 j0 (exec alg w seg) := by
  induction seg with
  | nil => intro w _ h; exact h
  | cons a rest ih =>
    intro w hseg h
    simp only [List.mem_cons, not_or] at hseg
    exact ih _ hseg.2 (pausedInv_step alg w0 j0 w a (fun e => hseg.1 e.symm) h)

/-- C10, as amended: engaging the pause switch bounds the dequeues instead of
halting them.  From the moment the switch is engaged until it is released, the
number of items the workers remove from the queue is at most the number of
workers that were at the lock or hashing at that moment, hence at most the
number of workers, so the queue length drops by at most that number while the
switch is engaged.  Formally, for every state `w` with the switch on and a job
`j`, and every stretch of actions without a release: the switch is still on,
the number of dequeues made during the stretch is at most `readyCount j`, which
is at most the number of workers, and the queue of a still living job is
shorter by exactly the number of those dequeues. -/
theorem paused_dequeues_bounded (alg : HashAlgorithms) (w : World) (j : ThreadedHasher)
    (seg : List Action) (hj : w.mInstance = some j) (hp : w.mPaused = true)
    (hseg : Action.resume ∉ seg) :
    (exec alg w seg).mPaused = true ∧
    w.popped.length ≤ (exec alg w seg).popped.length ∧
    (exec alg w seg).popped.length ≤ w.popped.length + readyCount j ∧
    readyCount j ≤ j.mThreads.length ∧
    ∀ j', (exec alg w seg).mInstance = some j' →
      j'.mSearchQueue.length + ((exec alg w seg).popped.length - w.popped.length) =
        j.mSearchQueue.length := by
  have hinit : PausedInv w j w := by
    refine ⟨hp, ?_, le_refl _, ?_⟩
    · simp only [dequeueBudget, hj]
      split <;> omega
    · intro j' hj'
      rw [hj] at hj'
      simp only [Option.some.injEq] at hj'
      subst hj'
      rfl
  obtain ⟨h1, h2, h3, h4⟩ := pausedInv_exec alg w j seg w hseg hinit
  refine ⟨h1, h3, by omega, readyCount_le_length j, ?_⟩
  intro j' hj'
  have := h4 j' hj'
  omega

/-- Witness for C10: two workers, three items, the switch engaged from the
start; both workers take an item and then poll, and nothing more is taken. -/
theorem paused_dequeues_bounded_witness :
    (exec keepAlgorithms
      (launched 4 [] true HASH_NETPLAY_CRC [sampleAlpha, sampleBeta, sampleGamma] false)
      [Action.worker 0, Action.worker 1, Action.worker 0, Action.worker 1, Action.worker 0,
        Action.worker 1]).popped.length ≤
      (launched 4 [] true HASH_NETPLAY_CRC [sampleAlpha, sampleBeta, sampleGamma] false).popped.length +
        readyCount (ThreadedHasher.new (idleWorld [] 4) HASH_NETPLAY_CRC
          [sampleAlpha, sampleBeta, sampleGamma] false) ∧
    (exec keepAlgorithms
      (launched 4 [] true HASH_NETPLAY_CRC [sampleAlpha, sampleBeta, sampleGamma] false)
      [Action.worker 0, Action.worker 1, Action.worker 0, Action.worker 1, Action.worker 0,
        Action.worker 1]).popped = [sampleAlpha, sampleBeta] ∧
    readyCount (ThreadedHasher.new (idleWorld [] 4) HASH_NETPLAY_CRC
      [sampleAlpha, sampleBeta, sampleGamma] false) = 2 :=
  ⟨(paused_dequeues_bounded keepAlgorithms
    (launched 4 [] true HASH_NETPLAY_CRC [sampleAlpha, sampleBeta, sampleGamma] false)
    (ThreadedHasher.new (idleWorld [] 4) HASH_NETPLAY_CRC [sampleAlpha, sampleBeta, sampleGamma]
      false)
    [Action.worker 0, Action.worker 1, Action.worker 0, Action.worker 1, Action.worker 0,
      Action.worker 1] rfl rfl (by decide)).2.2.1, by decide, by decide⟩

/-- Counterexample to C10 as stated: with two workers and three queued items,
the switch is engaged first; while it stays engaged both workers still take an
item each, so the queue length goes from 3 to 1. -/
theorem dequeues_while_paused :
    (exec keepAlgorithms
      (launched 4 [] false HASH_NETPLAY_CRC [sampleAlpha, sampleBeta, sampleGamma] false)
      [Action.pause]).mPaused = true ∧
    (exec keepAlgorithms
      (launched 4 [] false HASH_NETPLAY_CRC [sampleAlpha, sampleBeta, sampleGamma] false)
      [Action.pause]).mInstance.map (fun j => j.mSearchQueue.length) = some 3 ∧
    (exec keepAlgorithms
      (launched 4 [] false HASH_NETPLAY_CRC [sampleAlpha, sampleBeta, sampleGamma] false)
      [Action.pause, Action.worker 0]).mPaused = true ∧
    (exec keepAlgorithms
      (launched 4 [] false HASH_NETPLAY_CRC [sampleAlpha, sampleBeta, sampleGamma] false)
      [Action.pause, Action.worker 0]).mInstance.map (fun j => j.mSearchQueue.length) = some 2 ∧
    (exec keepAlgorithms
      (launched 4 [] false HASH_NETPLAY_CRC [sampleAlpha, sampleBeta, sampleGamma] false)
      [Action.pause, Action.worker 0, Action.worker 1]).mPaused = true ∧
    (exec keepAlgorithms
      (launched 4 [] false HASH_NETPLAY_CRC [sampleAlpha, sampleBeta, sampleGamma] false)
      [Action.pause, Action.worker 0, Action.worker 1]).mInstance.map
        (fun j => j.mSearchQueue.length) = some 1 := by
  decide

/-! ## Every run can be completed -/

theorem runStep_dequeue (alg : HashAlgorithms) (w : World) (j : ThreadedHasher) (i : Nat)
    (g : FileData) (rest : List FileData) (hinst : w.mInstance = some j)
    (hpc : j.mThreads[i]? = some WorkerPc.atLock) (hexit : j.mExit = false)
    (hq : j.mSearchQueue = g :: rest) :
    runStep alg w i =
      { w with
        reports := w.reports ++ [j.updateUI g]
        popped := w.popped ++ [g]
        mInstance := some { j with
          mSearchQueue := rest
          mThreads := j.mThreads.set i (WorkerPc.afterUnlock g) } } := by
  unfold runStep
  simp only [hinst, hpc, hexit, hq]

theorem runStep_afterUnlock (alg : HashAlgorithms) (w : World) (j : ThreadedHasher) (i : Nat)
    (g : FileData) (hinst : w.mInstance = some j)
    (hpc : j.mThreads[i]? = some (WorkerPc.afterUnlock g)) (hp : w.mPaused = false) :
    runStep alg w i =
      { w with mInstance := some { j with
          mThreads := j.mThreads.set i (WorkerPc.hashing g) } } := by
  unfold runStep
  simp only [hinst, hpc, hp, Bool.false_eq_true, if_false]

theorem runStep_hashing (alg : HashAlgorithms) (w : World) (j : ThreadedHasher) (i : Nat)
    (g : FileData) (hinst : w.mInstance = some j)
    (hpc : j.mThreads[i]? = some (WorkerPc.hashing g)) :
    runStep alg w i =
      { w with
        hashed := w.hashed ++ [hashWork alg j g]
        mInstance := some { j with
          mThreads := j.mThreads.set i WorkerPc.atLock } } := by
  unfold runStep
  simp only [hinst, hpc]

theorem runStep_exit (alg : HashAlgorithms) (w : World) (j : ThreadedHasher) (i : Nat)
    (hinst : w.mInstance = some j) (hpc : j.mThreads[i]? = some WorkerPc.atLock)
    (hq : j.mSearchQueue = []) :
    runStep alg w i =
      if j.mThreadCount - 1 = 0 then
        { w with
          exitLog := w.exitLog ++ [(i, j.mThreadCount - 1)]
          closedBy := w.closedBy ++ [i]
          mInstance := none }
      else
        { w with
          exitLog := w.exitLog ++ [(i, j.mThreadCount - 1)]
          mInstance := some { j with
            mThreadCount := j.mThreadCount - 1
            mThreads := j.mThreads.set i WorkerPc.finished } } := by
  unfold runStep
  simp only [hinst, hpc, hq]
  cases j.mExit <;> rfl

theorem exec_append (alg : HashAlgorithms) (s1 s2 : List Action) :
    ∀ w, exec alg w (s1 ++ s2) = exec alg (exec alg w s1) s2 := by
  induction s1 with
  | nil => intro w; rfl
  | cons a s1 ih => intro w; exact ih _

theorem drain_one (alg : HashAlgorithms) (q : List FileData) (N : Nat) (w : World)
    (g : FileData) (rest : List FileData) (hN : 1 ≤ N) (h : DrainState q N w (g :: rest)) :
    DrainState q N (exec alg w [Action.worker 0, Action.worker 0, Action.worker 0]) rest := by
  obtain ⟨hp, hlog, hpop, j, hinst, hexit, hq, hcount, hth⟩ := h
  have h0 := hth 0 (by omega)
  have e1 := runStep_dequeue alg w j 0 g rest hinst h0 hexit hq
  have e2 := runStep_afterUnlock alg (runStep alg w 0) _ 0 g (by rw [e1])
    (by simp only [List.getElem?_set_self', h0]; rfl) (by rw [e1]; exact hp)
  have e3 := runStep_hashing alg (runStep alg (runStep alg w 0) 0) _ 0 g (by rw [e2])
    (by simp only [List.getElem?_set_self', h0]; rfl)
  simp only [exec, step]
  rw [e3]
  refine ⟨?_, ?_, ?_, _, rfl, hexit, rfl, hcount, ?_⟩
  · rw [e2, e1]; exact hp
  · rw [e2, e1]; exact hlog
  · rw [e2, e1]
    simp only [List.append_assoc, List.singleton_append]
    exact hpop
  · intro i hi
    cases i with
    | zero => simp only [List.getElem?_set_self', h0]; rfl
    | succ i =>
      simp only [List.set_set]
      rw [List.getElem?_set_ne (by omega)]
      exact hth (i + 1) hi

theorem drain_all (alg : HashAlgorithms) (q : List FileData) (N : Nat) (hN : 1 ≤ N)
    (rest : List FileData) : ∀ w, DrainState q N w rest →
      ∃ sched, DrainState q N (exec alg w sched) [] := by
  induction rest with
  | nil => intro w h; exact ⟨[], h⟩
  | cons g rest ih =>
    intro w h
    obtain ⟨sched, hs⟩ := ih _ (drain_one alg q N w g rest hN h)
    exact ⟨[Action.worker 0, Action.worker 0, Action.worker 0] ++ sched, by
      rw [exec_append]; exact hs⟩

theorem exit_all (alg : HashAlgorithms) (q : List FileData) (N : Nat) (m : Nat) :
    ∀ (k : Nat) (w : World), N = k + m + 1 → ExitState q N w k →
      ∃ sched, (exec alg w sched).mInstance = none ∧ (exec alg w sched).popped = q := by
  induction m with
  | zero =>
    intro k w hk h
    obtain ⟨hpop, hlen, j, hinst, hq, hcount, hth⟩ := h
    have e := runStep_exit alg w j k hinst (hth k (le_refl _) (by omega)) hq
    have hz : j.mThreadCount - 1 = 0 := by rw [hcount, hk]; push_cast; omega
    rw [if_pos hz] at e
    refine ⟨[Action.worker k], ?_, ?_⟩
    · simp only [exec, step]; rw [e]
    · simp only [exec, step]; rw [e]; exact hpop
  | succ m ih =>
    intro k w hk h
    obtain ⟨hpop, hlen, j, hinst, hq, hcount, hth⟩ := h
    have e := runStep_exit alg w j k hinst (hth k (le_refl _) (by omega)) hq
    have hz : j.mThreadCount - 1 ≠ 0 := by rw [hcount, hk]; push_cast; omega
    rw [if_neg hz] at e
    have hnext : ExitState q N (runStep alg w k) (k + 1) := by
      rw [e]
      refine ⟨hpop, ?_, _, rfl, hq, ?_, ?_⟩
      · simp only [List.length_append, List.length_singleton, hlen]
      · simp only [hcount]; push_cast; omega
      · intro i hi hiN
        simp only
        rw [List.getElem?_set_ne (by omega)]
        exact hth i (by omega) hiN
    obtain ⟨sched, hs⟩ := ih (k + 1) _ (by omega) hnext
    exact ⟨Action.worker k :: sched, hs⟩

/-- With the pause switch off, every run can be completed: some schedule
dequeues every item of the initial queue and ends with the job disposed. -/
theorem run_can_complete (alg : HashAlgorithms) (hw : Nat) (table : List (String × String))
    (type : Nat) (q : List FileData) (force : Bool) :
    ∃ sched, (exec alg (launched hw table false type q force) sched).popped = q ∧
      (exec alg (launched hw table false type q force) sched).mInstance = none := by
  have hN := numThreads_pos hw
  have hstart : DrainState q (numThreads hw) (launched hw table false type q force) q := by
    refine ⟨rfl, rfl, rfl, _, rfl, rfl, rfl, rfl, ?_⟩
    intro i hi
    simp only [ThreadedHasher.new]
    rw [List.getElem?_replicate]
    simp [hi]
  obtain ⟨s1, h1⟩ := drain_all alg q (numThreads hw) hN q _ hstart
  have hexit : ExitState q (numThreads hw)
      (exec alg (launched hw table false type q force) s1) 0 := by
    obtain ⟨-, hlog, hpop, j, hinst, -, hq, hcount, hth⟩ := h1
    refine ⟨by simpa using hpop, by rw [hlog]; rfl, j, hinst, hq, by rw [hcount]; simp, ?_⟩
    intro i _ hi
    exact hth i hi
  obtain ⟨s2, h2, h3⟩ := exit_all alg q (numThreads hw) (numThreads hw - 1) 0 _ (by omega) hexit
  exact ⟨s1 ++ s2, by rw [exec_append]; exact h3, by rw [exec_append]; exact h2⟩

/-! ## Teardown and the publication of the job -/

/-- C6, evaluated on the code: `start` is called with no job active on a
catalog with one candidate, on a machine that gives one worker.  The
constructor spawns the worker, and the worker runs to its end before `start`
assigns the result of `new` to `mInstance`.  The exit section decrements
`mThreadCount` once, sees 0, deletes the job and closes the reporter once, and
sets the pointer to null; the assignment of line 171 then stores the address of
the deleted job, so the singleton pointer ends non-null although the job is
gone.  When the assignment comes before the worker's steps, the same moves end
with a null pointer. -/
theorem teardown_before_store_leaves_pointer :
    -- after the constructor: one worker, the candidate queued, nothing stored
    ((HasherProcess.run keepAlgorithms idleProcess
        [HasherProcess.Move.startNew HASH_NETPLAY_CRC false true]).heap.mInstance.map
        (fun j => (j.mThreadCount, j.mSearchQueue, j.mThreads)) =
      some (1, [sampleAlpha], [WorkerPc.atLock])) ∧
    (HasherProcess.run keepAlgorithms idleProcess
        [HasherProcess.Move.startNew HASH_NETPLAY_CRC false true]).pointer = none ∧
    (HasherProcess.run keepAlgorithms idleProcess
        [HasherProcess.Move.startNew HASH_NETPLAY_CRC false true]).toStore = some 1 ∧
    -- the worker finishes first: one decrement, it saw 0, one close, job gone
    (HasherProcess.run keepAlgorithms idleProcess teardownBeforeStore).heap.popped =
      [sampleAlpha] ∧
    (HasherProcess.run keepAlgorithms idleProcess teardownBeforeStore).heap.exitLog =
      [(0, 0)] ∧
    (HasherProcess.run keepAlgorithms idleProcess teardownBeforeStore).heap.closedBy = [0] ∧
    (HasherProcess.run keepAlgorithms idleProcess teardownBeforeStore).heap.mInstance = none ∧
    -- and yet the singleton pointer is not null
    (HasherProcess.run keepAlgorithms idleProcess teardownBeforeStore).pointer = some 1 ∧
    -- with the assignment first, the pointer ends null
    (HasherProcess.run keepAlgorithms idleProcess storeBeforeTeardown).heap.exitLog =
      [(0, 0)] ∧
    (HasherProcess.run keepAlgorithms idleProcess storeBeforeTeardown).heap.closedBy = [0] ∧
    (HasherProcess.run keepAlgorithms idleProcess storeBeforeTeardown).heap.mInstance = none ∧
    (HasherProcess.run keepAlgorithms idleProcess storeBeforeTeardown).pointer = none := by
  decide
